import Mathlib

/-!
Verification development for a small Redis-compatible server
(`app/` package: `parsers.py`, `encoders.py`, `datastore.py`,
`command_handler.py`, `server.py`, `replication.py`, `events.py`).

Modelling conventions, used throughout:

* Python `str` and `bytes` values are both embedded as `List Char`
  (abbreviated `Str`).  All data exercised by the theorems is ASCII, where
  one character is one byte, so `len` on either side is `List.length` and
  UTF-8 encoding/decoding is the identity.  `decode` steps in the source are
  therefore dropped.
* Python wall-clock instants (`time.time()` results and stored expiries) are
  embedded as `Int` ticks passed explicitly to each function that reads the
  clock; only their order and the truthiness of `0` matter to the code.
* Exceptions are embedded as `Except`: a Python function that can raise
  returns `Except e a`, and a raise before any mutation corresponds to an
  `Except.error` result that leaves the caller's state unchanged.
-/

abbrev Str := List Char

/-- `CRLF` delimiter, `constants.CRLF` in the source. -/
def CRLF : Str := ['\r', '\n']

/-- ASCII decimal digit test, the digit class CPython's `int(str)` accepts on
ASCII input. -/
def isDig (c : Char) : Bool :=
  c = '0' || c = '1' || c = '2' || c = '3' || c = '4' ||
  c = '5' || c = '6' || c = '7' || c = '8' || c = '9'

/-- Whitespace stripped by CPython's `int(str)` around the digits. -/
def pyWs (c : Char) : Bool :=
  c = ' ' || c = '\t' || c = '\n' || c = '\r' || c = '\x0b' || c = '\x0c'

/-- Numeric value of an ASCII digit character. -/
def digitVal (c : Char) : Nat := c.toNat - 48

/-- Digit character for a value `0 ≤ n ≤ 9` (as produced by `str(int)`). -/
def digitChar (n : Nat) : Char :=
  if n = 0 then '0' else if n = 1 then '1' else if n = 2 then '2'
  else if n = 3 then '3' else if n = 4 then '4' else if n = 5 then '5'
  else if n = 6 then '6' else if n = 7 then '7' else if n = 8 then '8' else '9'

/-- Little-endian digit list of `n` (empty for `0`), fuel-indexed so that the
recursion is structural; `n` itself is always enough fuel since `n / 10 < n`. -/
def natDigitsAux : Nat → Nat → List Char
  | 0, _ => []
  | _ + 1, 0 => []
  | fuel + 1, n + 1 => digitChar ((n + 1) % 10) :: natDigitsAux fuel ((n + 1) / 10)

/-- Little-endian digit list of `n` (empty for `0`); helper for `natToChars`. -/
def natDigits (n : Nat) : List Char := natDigitsAux n n

/-- Decimal rendering of a natural number, CPython's `str` on a
nonnegative `int`. -/
def natToChars (n : Nat) : Str :=
  if n = 0 then ['0'] else (natDigits n).reverse

/-- Decimal rendering of an integer, CPython's `str` on `int` (used via
f-strings in `encoders.py`). -/
def intToChars (n : Int) : Str :=
  if n < 0 then '-' :: natToChars (-n).toNat else natToChars n.toNat

/-- Digit-run scanner for CPython's `int(str)`: after a first digit, single
underscores are allowed between digits. -/
def pyDigitsAux : Str → Nat → Option Nat
  | [], acc => some acc
  | [c], acc =>
    if c = '_' then none
    else if isDig c then pyDigitsAux [] (acc * 10 + digitVal c) else none
  | c :: c' :: rest, acc =>
    if c = '_' then
      if isDig c' then pyDigitsAux rest (acc * 10 + digitVal c') else none
    else if isDig c then pyDigitsAux (c' :: rest) (acc * 10 + digitVal c) else none

/-- Unsigned digit-part of CPython's `int(str)`: at least one digit, with
single underscores allowed between digits. -/
def pyDigits : Str → Option Nat
  | [] => none
  | c :: rest => if isDig c then pyDigitsAux rest (digitVal c) else none

/-- Strip `pyWs` whitespace from both ends, as CPython's `int(str)` does. -/
def stripChars (l : Str) : Str :=
  ((l.dropWhile pyWs).reverse.dropWhile pyWs).reverse

/-- CPython's `int(str)` on ASCII input: optional surrounding whitespace,
optional sign, then a digit run.  `none` models the `ValueError` raise. -/
def pyIntStr (l : Str) : Option Int :=
  match stripChars l with
  | [] => none
  | c :: rest =>
    if c = '+' then (pyDigits rest).map Int.ofNat
    else if c = '-' then (pyDigits rest).map (fun n => -(n : Int))
    else (pyDigits (c :: rest)).map Int.ofNat

/-! encoders.py -/

/-- `encoders.encode_simple_string`. -/
def encode_simple_string (v : Str) : Str := '+' :: v ++ CRLF

/-- `encoders.encode_integer`. -/
def encode_integer (n : Int) : Str := ':' :: intToChars n ++ CRLF

/-- `encoders.encode_bulk_string`; `none` is Python's `None` argument. -/
def encode_bulk_string : Option Str → Str
  | none => '$' :: '-' :: '1' :: CRLF
  | some v => '$' :: natToChars v.length ++ CRLF ++ v ++ CRLF

/-- `encoders.encode_array`: the arguments are already-encoded fragments,
joined after the `*<len>` header, exactly as `"".join(values)` does. -/
def encode_array (values : List Str) : Str :=
  '*' :: natToChars values.length ++ CRLF ++ values.flatten

/-- `encoders.encode_error`. -/
def encode_error (message : Str) : Str :=
  '-' :: 'E' :: 'R' :: 'R' :: ' ' :: message ++ CRLF

/-! parsers.py, class RedisProtocolParser.

The constructor splits the read buffer on CRLF into a deque
(`self.data = deque(data.split(b"\r\n"))`); `parse` pops from its front.
The deque is embedded as `List Str` and the recursive `parse` as a
fuel-indexed function: every call pops at least one deque element before
recursing, so `parse` below hands it fuel `deque length + 1`, which is never
exhausted; the fuel-out branch is unreachable and mapped to an error. -/

abbrev Deque := List Str

/-- Result of `RedisProtocolParser.parse`: a Python `str`, `None` (null bulk
string or null array), or a list of results. -/
inductive RValue
  | str : Str → RValue
  | nil : RValue
  | arr : List RValue → RValue

/-- Python truthiness of a parse result, as tested by
`while query := parser.parse()`. -/
def rTruthy : RValue → Bool
  | .nil => false
  | .str s => !s.isEmpty
  | .arr l => !l.isEmpty

/-- The ways `RedisProtocolParser.parse` can raise: `RedisProtocolError`
("No data to parse", length mismatch, unsupported type), the `ValueError`
from `int(line[1:])`, the `IndexError` from popping an empty deque, and the
unreachable fuel guard. -/
inductive PErr
  | noData
  | badInt
  | lenMismatch
  | unsupported
  | fuelOut
deriving DecidableEq

/-- The comprehension `[self.parse() for _ in range(n)]` in `_parse_array`:
iterate the parser `p` (one recursion level down) over the shared deque. -/
def parseElemsWith (p : Deque → Except PErr (RValue × Deque)) :
    Nat → Deque → Except PErr (List RValue × Deque)
  | 0, d => .ok ([], d)
  | n + 1, d =>
    match p d with
    | .error e => .error e
    | .ok (v, d') =>
      match parseElemsWith p n d' with
      | .error e => .error e
      | .ok (vs, d'') => .ok (v :: vs, d'')

/-- The body of `RedisProtocolParser.parse` / `_parse_array` /
`_parse_bulk_string`, with `p` standing for the recursive calls
(`self.parse()`) made while parsing array elements. -/
def parseStep (p : Deque → Except PErr (RValue × Deque)) :
    Deque → Except PErr (RValue × Deque)
  | [] => .error .noData
  | line :: d =>
    match line with
    | [] => .error .unsupported
    | c :: numChars =>
      if c = '*' then
        match pyIntStr numChars with
        | none => .error .badInt
        | some n =>
          -- `number_of_elements == -1` yields the null array (Python `None`);
          -- any other count runs the comprehension `range(n)` (empty for n ≤ 0).
          if n = -1 then .ok (.nil, d)
          else
            match parseElemsWith p n.toNat d with
            | .error e => .error e
            | .ok (vs, d') => .ok (.arr vs, d')
      else if c = '$' then
        match pyIntStr numChars with
        | none => .error .badInt
        | some n =>
          if n = -1 then .ok (.nil, d)
          else
            match d with
            | [] => .error .noData
            | content :: d' =>
              if (content.length : Int) = n then .ok (.str content, d')
              else .error .lenMismatch
      else .error .unsupported

/-- `RedisProtocolParser.parse` at bounded recursion depth: each level
consumes at least one deque element before recursing, so depth
`deque length + 1` (as supplied by `parse`) is never exhausted and the
`fuelOut` branch is unreachable. -/
def parseCore : Nat → Deque → Except PErr (RValue × Deque)
  | 0 => fun _ => .error .fuelOut
  | fuel + 1 => parseStep (parseCore fuel)

/-- One `parser.parse()` call on deque `d`; the fuel `d.length + 1` is enough
for any input (each recursive level first consumes a deque element). -/
def parse (d : Deque) : Except PErr (RValue × Deque) :=
  parseCore (d.length + 1) d

/-- `bytes.split(b"\r\n")` from the `RedisProtocolParser` constructor:
split on every (leftmost-first) occurrence of CRLF. -/
def splitCRLF : List Char → List Str
  | [] => [[]]
  | [c] => [[c]]
  | c :: c' :: rest =>
    if c = '\r' ∧ c' = '\n' then [] :: splitCRLF rest
    else
      match splitCRLF (c' :: rest) with
      | h :: t => (c :: h) :: t
      | [] => [[c]]

/-- `data` holds no CRLF occurrence (so `splitCRLF` keeps it in one piece). -/
def noCRLF : List Char → Bool
  | [] => true
  | [_] => true
  | c :: c' :: rest =>
    if c = '\r' ∧ c' = '\n' then false else noCRLF (c' :: rest)

/-- Canonical RESP serialization of a command, as produced by the source's
re-encoding `encode_array([encode_bulk_string(piece) for piece in query])`
(`replication.py` lines 160-161) and by well-behaved clients. -/
def encodeCommand (cmd : List Str) : Str :=
  encode_array (cmd.map (fun s => encode_bulk_string (some s)))

example : splitCRLF ("*1\r\n$4\r\nPING\r\n".toList) =
    ["*1".toList, "$4".toList, "PING".toList, []] := by decide

example : pyIntStr ("-1".toList) = some (-1) := by decide

example : parse (splitCRLF ("*2\r\n$4\r\nECHO\r\n$2\r\nhi\r\n".toList)) =
    .ok (.arr [.str "ECHO".toList, .str "hi".toList], [[]]) := rfl

/-! Auxiliary facts: decimal rendering round-trips through `int()`, and
CRLF-free chunks pass through `splitCRLF` unchanged. -/

theorem isDig_elim {c : Char} (h : isDig c = true) :
    c = '0' ∨ c = '1' ∨ c = '2' ∨ c = '3' ∨ c = '4' ∨
    c = '5' ∨ c = '6' ∨ c = '7' ∨ c = '8' ∨ c = '9' := by
  simp [isDig] at h
  tauto

theorem digitChar_isDig (n : Nat) : isDig (digitChar n) = true := by
  unfold digitChar
  repeat' split
  all_goals decide

theorem digitVal_digitChar {n : Nat} (h : n < 10) : digitVal (digitChar n) = n := by
  interval_cases n <;> decide

theorem isDig_not_ws {c : Char} (h : isDig c = true) : pyWs c = false := by
  rcases isDig_elim h with rfl | rfl | rfl | rfl | rfl | rfl | rfl | rfl | rfl | rfl <;> decide

theorem isDig_ne_plus {c : Char} (h : isDig c = true) : ¬(c = '+') := by
  rcases isDig_elim h with rfl | rfl | rfl | rfl | rfl | rfl | rfl | rfl | rfl | rfl <;> decide

theorem isDig_ne_minus {c : Char} (h : isDig c = true) : ¬(c = '-') := by
  rcases isDig_elim h with rfl | rfl | rfl | rfl | rfl | rfl | rfl | rfl | rfl | rfl <;> decide

theorem isDig_ne_us {c : Char} (h : isDig c = true) : ¬(c = '_') := by
  rcases isDig_elim h with rfl | rfl | rfl | rfl | rfl | rfl | rfl | rfl | rfl | rfl <;> decide

theorem isDig_ne_cr {c : Char} (h : isDig c = true) : ¬(c = '\r') := by
  rcases isDig_elim h with rfl | rfl | rfl | rfl | rfl | rfl | rfl | rfl | rfl | rfl <;> decide

theorem natDigitsAux_all_dig :
    ∀ fuel n c, c ∈ natDigitsAux fuel n → isDig c = true := by
  intro fuel
  induction fuel with
  | zero => intro n c hc; simp [natDigitsAux] at hc
  | succ f ih =>
    intro n c hc
    cases n with
    | zero => simp [natDigitsAux] at hc
    | succ m =>
      rw [natDigitsAux] at hc
      rcases List.mem_cons.mp hc with rfl | hc
      · exact digitChar_isDig _
      · exact ih _ _ hc

/-- Value accumulated by scanning a digit run most-significant first. -/
def valFold (l : List Char) (acc : Nat) : Nat :=
  l.foldl (fun a c => a * 10 + digitVal c) acc

theorem valFold_append (xs ys : List Char) (acc : Nat) :
    valFold (xs ++ ys) acc = valFold ys (valFold xs acc) := by
  simp [valFold, List.foldl_append]

theorem natDigitsAux_val :
    ∀ fuel n acc, n ≤ fuel →
      valFold (natDigitsAux fuel n).reverse acc =
        acc * 10 ^ (natDigitsAux fuel n).length + n := by
  intro fuel
  induction fuel with
  | zero =>
    intro n acc h
    interval_cases n
    simp [natDigitsAux, valFold]
  | succ f ih =>
    intro n acc h
    cases n with
    | zero => simp [natDigitsAux, valFold]
    | succ m =>
      have hdiv : (m + 1) / 10 ≤ f := by
        have := Nat.div_lt_self (Nat.succ_pos m) (by omega : 1 < 10)
        omega
      rw [natDigitsAux, List.reverse_cons, valFold_append, ih _ acc hdiv,
        List.length_cons]
      have hval : valFold [digitChar ((m + 1) % 10)]
          (acc * 10 ^ (natDigitsAux f ((m + 1) / 10)).length + (m + 1) / 10) =
          (acc * 10 ^ (natDigitsAux f ((m + 1) / 10)).length + (m + 1) / 10) * 10 +
            (m + 1) % 10 := by
        simp [valFold, digitVal_digitChar (Nat.mod_lt _ (by omega))]
      rw [hval, Nat.pow_succ]
      have hmod := Nat.div_add_mod (m + 1) 10
      generalize (10 : Nat) ^ (natDigitsAux f ((m + 1) / 10)).length = K at *
      calc (acc * K + (m + 1) / 10) * 10 + (m + 1) % 10
          = acc * (K * 10) + (10 * ((m + 1) / 10) + (m + 1) % 10) := by ring
        _ = acc * (K * 10) + (m + 1) := by rw [hmod]

theorem natToChars_all_dig (n : Nat) : ∀ c ∈ natToChars n, isDig c = true := by
  intro c hc
  unfold natToChars at hc
  split at hc
  · rcases List.mem_singleton.mp hc with rfl
    decide
  · rw [List.mem_reverse] at hc
    exact natDigitsAux_all_dig _ _ _ hc

theorem natToChars_ne_nil (n : Nat) : natToChars n ≠ [] := by
  unfold natToChars
  split
  · simp
  · rename_i hn
    cases n with
    | zero => exact absurd rfl hn
    | succ m => simp [natDigits, natDigitsAux]

theorem valFold_natToChars (n : Nat) : valFold (natToChars n) 0 = n := by
  unfold natToChars
  split
  · rename_i hn
    subst hn
    decide
  · have := natDigitsAux_val n n 0 (le_refl n)
    simpa [natDigits] using this

theorem pyDigitsAux_digits :
    ∀ l acc, (∀ c ∈ l, isDig c = true) → pyDigitsAux l acc = some (valFold l acc) := by
  intro l
  induction l with
  | nil => intro acc _; simp [pyDigitsAux, valFold]
  | cons c rest ih =>
    intro acc h
    have hc : isDig c = true := h c (List.mem_cons_self c rest)
    cases rest with
    | nil =>
      rw [pyDigitsAux, if_neg (isDig_ne_us hc), if_pos hc]
      simp [pyDigitsAux, valFold]
    | cons c' rest' =>
      rw [pyDigitsAux, if_neg (isDig_ne_us hc), if_pos hc,
        ih _ fun x hx => h x (List.mem_cons_of_mem _ hx)]
      simp [valFold]

theorem pyDigits_eq (l : Str) (hne : l ≠ []) (h : ∀ c ∈ l, isDig c = true) :
    pyDigits l = some (valFold l 0) := by
  cases l with
  | nil => exact absurd rfl hne
  | cons c rest =>
    have hc : isDig c = true := h c (List.mem_cons_self c rest)
    rw [pyDigits, if_pos hc,
      pyDigitsAux_digits _ _ fun x hx => h x (List.mem_cons_of_mem _ hx)]
    simp [valFold]

theorem dropWhile_id_of_all {p : Char → Bool} (l : Str)
    (h : ∀ c ∈ l, p c = false) : l.dropWhile p = l := by
  cases l with
  | nil => rfl
  | cons c rest =>
    rw [List.dropWhile_cons, if_neg]
    simp [h c (List.mem_cons_self c rest)]

theorem stripChars_digits (l : Str) (h : ∀ c ∈ l, isDig c = true) :
    stripChars l = l := by
  unfold stripChars
  rw [dropWhile_id_of_all l fun c hc => isDig_not_ws (h c hc),
    dropWhile_id_of_all l.reverse
      (fun c hc => isDig_not_ws (h c (List.mem_reverse.mp hc))),
    List.reverse_reverse]

theorem pyIntStr_digits (l : Str) (hne : l ≠ []) (h : ∀ c ∈ l, isDig c = true) :
    pyIntStr l = some ((valFold l 0 : Nat) : Int) := by
  cases l with
  | nil => exact absurd rfl hne
  | cons c rest =>
    have hc : isDig c = true := h c (List.mem_cons_self c rest)
    have hv := pyDigits_eq (c :: rest) (by simp) h
    rw [pyIntStr, stripChars_digits _ h]
    simp only [if_neg (isDig_ne_plus hc), if_neg (isDig_ne_minus hc), hv]
    rfl

theorem pyIntStr_natToChars (n : Nat) : pyIntStr (natToChars n) = some (n : Int) := by
  have := pyIntStr_digits (natToChars n) (natToChars_ne_nil n) (natToChars_all_dig n)
  rwa [valFold_natToChars] at this

theorem noCRLF_of_ne_cr (l : List Char) (h : ∀ c ∈ l, ¬(c = '\r')) :
    noCRLF l = true := by
  induction l with
  | nil => rfl
  | cons c rest ih =>
    cases rest with
    | nil => rfl
    | cons c' rest' =>
      rw [noCRLF, if_neg]
      · exact ih fun x hx => h x (List.mem_cons_of_mem _ hx)
      · rintro ⟨hc, _⟩
        exact h c (List.mem_cons_self _ _) hc

theorem splitCRLF_append (a b : List Char) (h : noCRLF a = true) :
    splitCRLF (a ++ '\r' :: '\n' :: b) = a :: splitCRLF b := by
  induction a with
  | nil =>
    show splitCRLF ('\r' :: '\n' :: b) = [] :: splitCRLF b
    rw [splitCRLF, if_pos ⟨rfl, rfl⟩]
  | cons c a ih =>
    cases a with
    | nil =>
      show splitCRLF (c :: '\r' :: '\n' :: b) = [c] :: splitCRLF b
      rw [splitCRLF, if_neg (by simp),
        show splitCRLF ('\r' :: '\n' :: b) = [] :: splitCRLF b from by
          rw [splitCRLF, if_pos ⟨rfl, rfl⟩]]
    | cons c' a' =>
      have hcc : ¬(c = '\r' ∧ c' = '\n') := by
        intro hq
        rw [noCRLF, if_pos hq] at h
        exact Bool.false_ne_true h
      have hrest : noCRLF (c' :: a') = true := by
        rw [noCRLF, if_neg hcc] at h
        exact h
      show splitCRLF (c :: c' :: (a' ++ '\r' :: '\n' :: b)) =
        (c :: c' :: a') :: splitCRLF b
      rw [splitCRLF, if_neg hcc,
        show c' :: (a' ++ '\r' :: '\n' :: b) = (c' :: a') ++ '\r' :: '\n' :: b from rfl,
        ih hrest]

/-- The deque chunks contributed by one encoded bulk string. -/
def chunksBulk (s : Str) : Deque := [('$' :: natToChars s.length), s]

/-- The deque chunks contributed by one canonically encoded command. -/
def chunksCmd (cmd : List Str) : Deque :=
  ('*' :: natToChars cmd.length) :: (cmd.map chunksBulk).flatten

theorem noCRLF_header (c : Char) (hc : ¬(c = '\r')) (n : Nat) :
    noCRLF (c :: natToChars n) = true := by
  apply noCRLF_of_ne_cr
  intro x hx
  rcases List.mem_cons.mp hx with rfl | hx
  · exact hc
  · exact isDig_ne_cr (natToChars_all_dig n x hx)

theorem splitCRLF_bulk (s : Str) (hs : noCRLF s = true) (b : List Char) :
    splitCRLF (encode_bulk_string (some s) ++ b) =
      ('$' :: natToChars s.length) :: s :: splitCRLF b := by
  have h1 : encode_bulk_string (some s) ++ b =
      ('$' :: natToChars s.length) ++ '\r' :: '\n' :: (s ++ '\r' :: '\n' :: b) := by
    simp [encode_bulk_string, CRLF]
  rw [h1, splitCRLF_append _ _ (noCRLF_header '$' (by decide) _),
    splitCRLF_append _ _ hs]

theorem splitCRLF_bulks (l : List Str) (h : ∀ s ∈ l, noCRLF s = true)
    (b : List Char) :
    splitCRLF ((l.map (fun s => encode_bulk_string (some s))).flatten ++ b) =
      (l.map chunksBulk).flatten ++ splitCRLF b := by
  induction l with
  | nil => simp
  | cons s rest ih =>
    simp only [List.map_cons, List.flatten_cons, List.append_assoc]
    rw [splitCRLF_bulk s (h s (List.mem_cons_self _ _)) _,
      ih fun x hx => h x (List.mem_cons_of_mem _ hx)]
    simp [chunksBulk]

theorem splitCRLF_cmd (cmd : List Str) (h : ∀ s ∈ cmd, noCRLF s = true)
    (b : List Char) :
    splitCRLF (encodeCommand cmd ++ b) = chunksCmd cmd ++ splitCRLF b := by
  have h1 : encodeCommand cmd ++ b =
      ('*' :: natToChars cmd.length) ++ '\r' :: '\n' ::
        ((cmd.map (fun s => encode_bulk_string (some s))).flatten ++ b) := by
    simp [encodeCommand, encode_array, CRLF]
  rw [h1, splitCRLF_append _ _ (noCRLF_header '*' (by decide) _),
    splitCRLF_bulks _ h]
  simp [chunksCmd]

theorem parseCore_succ (fuel : Nat) (d : Deque) :
    parseCore (fuel + 1) d = parseStep (parseCore fuel) d := rfl

theorem parseStep_bulk (p : Deque → Except PErr (RValue × Deque)) (s : Str)
    (d : Deque) :
    parseStep p (('$' :: natToChars s.length) :: s :: d) = .ok (.str s, d) := by
  have h1 : ¬((s.length : Int) = -1) := by omega
  simp [parseStep, pyIntStr_natToChars, h1]

theorem parseElems_bulks (f : Nat) (l : List Str) (d : Deque) :
    parseElemsWith (parseCore (f + 1)) l.length ((l.map chunksBulk).flatten ++ d) =
      .ok (l.map .str, d) := by
  induction l generalizing d with
  | nil => simp [parseElemsWith]
  | cons s rest ih =>
    have hp : parseCore (f + 1)
        (chunksBulk s ++ ((rest.map chunksBulk).flatten ++ d)) =
        .ok (.str s, (rest.map chunksBulk).flatten ++ d) := by
      rw [parseCore_succ]
      exact parseStep_bulk _ s _
    simp only [List.map_cons, List.flatten_cons, List.length_cons,
      List.append_assoc]
    rw [parseElemsWith]
    simp only [hp, ih]

theorem parseCmd_ok (f : Nat) (cmd : List Str) (d : Deque) :
    parseCore (f + 2) (chunksCmd cmd ++ d) = .ok (.arr (cmd.map .str), d) := by
  have hne : ¬((cmd.length : Int) = -1) := by omega
  rw [parseCore_succ,
    show chunksCmd cmd ++ d =
      ('*' :: natToChars cmd.length) :: ((cmd.map chunksBulk).flatten ++ d) from
      by simp [chunksCmd]]
  simp [parseStep, pyIntStr_natToChars, hne, parseElems_bulks]

theorem parse_cmd (cmd : List Str) (d : Deque) :
    parse (chunksCmd cmd ++ d) = .ok (.arr (cmd.map .str), d) := by
  unfold parse
  have h1 : 1 ≤ (chunksCmd cmd ++ d).length := by simp [chunksCmd]
  obtain ⟨f, hf⟩ : ∃ f, (chunksCmd cmd ++ d).length + 1 = f + 2 :=
    ⟨(chunksCmd cmd ++ d).length - 1, by omega⟩
  rw [hf, parseCmd_ok]

theorem splitCRLF_cmds (cmds : List (List Str))
    (h : ∀ cmd ∈ cmds, ∀ s ∈ cmd, noCRLF s = true) :
    splitCRLF ((cmds.map encodeCommand).flatten) =
      (cmds.map chunksCmd).flatten ++ [[]] := by
  induction cmds with
  | nil => simp [splitCRLF]
  | cons c rest ih =>
    have h1 : (((c :: rest).map encodeCommand).flatten : List Char) =
        encodeCommand c ++ (rest.map encodeCommand).flatten := by simp
    rw [h1, splitCRLF_cmd c (h c (List.mem_cons_self _ _)) _,
      ih fun x hx => h x (List.mem_cons_of_mem _ hx)]
    simp

theorem chunks_len (cmds : List (List Str)) :
    cmds.length ≤ (cmds.map chunksCmd).flatten.length := by
  induction cmds with
  | nil => simp
  | cons c rest ih =>
    simp only [List.map_cons, List.flatten_cons, List.length_append,
      List.length_cons, chunksCmd]
    omega

/-- Every character fits in one byte of the ASCII range, where Python
`str`/`bytes` lengths and UTF-8 round-trips coincide with the model. -/
def allAscii (l : Str) : Bool := l.all fun c => c.toNat ≤ 127

/-- Claim C5, counterexample.  The bulk string `"a\r\nb"` is a supported value
(a `str` fed to `encode_bulk_string`), but parsing the encoder's output does
not reproduce it: the CRLF inside the payload is consumed by the parser's
`split(b"\r\n")`, the first resulting chunk `"a"` fails the declared-length
check (1 ≠ 4), and `parse` raises `RedisProtocolError` instead of returning
the value. -/
theorem c5_roundtrip_crlf_payload_fails :
    parse (splitCRLF (encode_bulk_string (some "a\r\nb".toList))) =
      .error .lenMismatch := by
  exact rfl

/-- Claim C5 (amended): the RESP round-trip holds on the supported subset as
long as every bulk-string payload is free of the CRLF delimiter (and, for the
byte-level reading, ASCII): parsing the encoder's output reproduces the
value, for a bulk string, for the nil bulk string, and for an array of bulk
strings; in each case the deque remainder is the single empty chunk left by
the trailing CRLF. -/
theorem c5_roundtrip_crlf_free
    (s : Str) (hs : noCRLF s = true) (_hsa : allAscii s = true)
    (l : List Str) (hl : ∀ x ∈ l, noCRLF x = true ∧ allAscii x = true) :
    parse (splitCRLF (encode_bulk_string (some s))) = .ok (.str s, [[]]) ∧
    parse (splitCRLF (encode_bulk_string none)) = .ok (.nil, [[]]) ∧
    parse (splitCRLF (encode_array (l.map fun x => encode_bulk_string (some x)))) =
      .ok (.arr (l.map RValue.str), [[]]) := by
  refine ⟨?_, rfl, ?_⟩
  · have hsplit : splitCRLF (encode_bulk_string (some s)) =
        ('$' :: natToChars s.length) :: s :: [[]] := by
      have := splitCRLF_bulk s hs []
      simpa using this
    rw [hsplit]
    show parseStep (parseCore 2) (('$' :: natToChars s.length) :: s :: [[]]) =
      .ok (.str s, [[]])
    exact parseStep_bulk _ s _
  · have hsplit : splitCRLF (encode_array (l.map fun x => encode_bulk_string (some x))) =
        chunksCmd l ++ [[]] := by
      have := splitCRLF_cmd l (fun x hx => (hl x hx).1) []
      simpa [encodeCommand] using this
    rw [hsplit]
    exact parse_cmd l [[]]

/-- Claim C5, witness: the amended round-trip applied to the bulk string
`"ok"` and the array `["SET", "k", "v"]`. -/
theorem c5_roundtrip_witness :
    parse (splitCRLF (encode_bulk_string (some "ok".toList))) =
      .ok (.str "ok".toList, [[]]) ∧
    parse (splitCRLF (encode_array
        (["SET".toList, "k".toList, "v".toList].map fun x =>
          encode_bulk_string (some x)))) =
      .ok (.arr (["SET".toList, "k".toList, "v".toList].map RValue.str), [[]]) := by
  have h := c5_roundtrip_crlf_free "ok".toList (by decide) (by decide)
    ["SET".toList, "k".toList, "v".toList] (by decide)
  exact ⟨h.1, h.2.2⟩

/-! datastore.py and the command evaluator (command_handler.py). -/

/-- A stored Python value: `SET` stores `str`, `INCR` stores `int`. -/
inductive Value
  | vStr : Str → Value
  | vInt : Int → Value
deriving DecidableEq

/-- Python truthiness of a stored value (`if self.datastore[key]`). -/
def valueTruthy : Value → Bool
  | .vStr s => !s.isEmpty
  | .vInt n => decide (¬(n = 0))

/-- `str(value)` on a stored value. -/
def pyStr : Value → Str
  | .vStr s => s
  | .vInt n => intToChars n

/-- `int(value)` on a stored value: identity on ints, decimal parse on
strings; `none` models the `ValueError` raise. -/
def pyIntOf : Value → Option Int
  | .vInt n => some n
  | .vStr s => pyIntStr s

/-- `utils.Container`: a stored value with optional absolute expiry.  Expiry
instants are in the same integer ticks as `now`; Python's seconds-float
arithmetic is order-isomorphic to it. -/
structure Container where
  value : Value
  expiry : Option Int := none
deriving DecidableEq

/-- Lookup in the association-list embedding of a Python `dict`
(insertion-ordered, one entry per key). -/
def kvFind {α : Type} : List (Str × α) → Str → Option α
  | [], _ => none
  | (k', v) :: rest, k => if k' = k then some v else kvFind rest k

/-- `d[k] = v` on a Python dict: overwrite in place, or append a new key. -/
def odSet {α : Type} : List (Str × α) → Str → α → List (Str × α)
  | [], k, v => [(k, v)]
  | (k', v') :: rest, k, v =>
    if k' = k then (k', v) :: rest else (k', v') :: odSet rest k v

/-- `del d[k]` on a Python dict. -/
def kvDel {α : Type} : List (Str × α) → Str → List (Str × α)
  | [], _ => []
  | (k', v') :: rest, k => if k' = k then rest else (k', v') :: kvDel rest k

abbrev KV := List (Str × Container)

/-- Whether `Datastore.__getitem__`'s expiry test fires:
`if item.expiry and time() > item.expiry` (an expiry of `0` is falsy). -/
def expiryDead (now : Int) (c : Container) : Bool :=
  match c.expiry with
  | none => false
  | some e => decide (¬(e = 0)) && decide (now > e)

/-- `Datastore.__getitem__` (datastore.py lines 20-29): absent keys yield
`None`; an expired entry is deleted on read and yields `None`; otherwise the
contained value is returned.  The possibly-updated dict is returned alongside
because of the deletion side effect. -/
def dsGet (kv : KV) (now : Int) (k : Str) : KV × Option Value :=
  match kvFind kv k with
  | none => (kv, none)
  | some c => if expiryDead now c then (kvDel kv k, none) else (kv, some c.value)

/-- `Datastore.__setitem__`: a non-`Container` value is wrapped in a
`Container` with no expiry. -/
def dsSetPlain (kv : KV) (k : Str) (v : Value) : KV :=
  odSet kv k { value := v, expiry := none }

/-! The stream store. -/

abbrev Attrs := List (Str × Str)
abbrev XStream := List (Str × Attrs)

/-- `entry_id.split("-")`. -/
def splitDash : Str → List Str
  | [] => [[]]
  | c :: rest =>
    if c = '-' then [] :: splitDash rest
    else
      match splitDash rest with
      | h :: t => (c :: h) :: t
      | [] => [[c]]

/-- `time, sequence = entry_id.split("-"); int(time), int(sequence)`
(datastore.py lines 38-39): exactly two dash-separated fields, each parsed by
`int`; `none` models the `ValueError` raise.  Both fields are nonnegative in
every parseable case (a minus sign inside a field would have been split on),
so the pair is returned as naturals; the sign guard is kept for totality. -/
def parseEntryId (s : Str) : Option (Nat × Nat) :=
  match splitDash s with
  | [a, b] =>
    match pyIntStr a, pyIntStr b with
    | some x, some y => if 0 ≤ x ∧ 0 ≤ y then some (x.toNat, y.toNat) else none
    | _, _ => none
  | _ => none

/-- Strict lexicographic order on parsed (ms, seq) entry ids. -/
def idLtB (a b : Nat × Nat) : Bool :=
  decide (a.1 < b.1) || (decide (a.1 = b.1) && decide (a.2 < b.2))

/-- `Datastore.peek`: key of the most recent (last-inserted) stream entry,
`None` on an empty stream. -/
def peekStream (s : XStream) : Option Str :=
  s.getLast?.map Prod.fst

/-- Errors raised by `Datastore.add_to_stream`: the two `StreamError`s
(caught by the XADD handler and surfaced as `-ERR …`) and the uncaught
`ValueError` from a malformed id. -/
inductive AddErr
  | idZero
  | idSmall
  | badId
deriving DecidableEq

/-- The `StreamError` messages of datastore.py lines 42 and 51-57. -/
def streamErrMsg : AddErr → Str
  | .idZero => "The ID specified in XADD must be greater than 0-0".toList
  | .idSmall =>
    "The ID specified in XADD is equal or smaller than the target stream top item".toList
  | .badId => []

/-- `Datastore.add_to_stream` (datastore.py lines 36-60) on one stream: parse
the id, reject (0,0), compare against the top (last) entry when present, and
only then run `stream[entry_id] = attributes` — every raise happens before
the mutation, so an error leaves the stream unchanged.  The Python function
ends in a bare `return`, i.e. it returns `None`. -/
def add_to_stream (s : XStream) (entryId : Str) (attributes : Attrs) :
    Except AddErr XStream :=
  match parseEntryId entryId with
  | none => .error .badId
  | some (t, q) =>
    if t = 0 ∧ q = 0 then .error .idZero
    else
      match peekStream s with
      | none => .ok (odSet s entryId attributes)
      | some topKey =>
        match parseEntryId topKey with
        | none => .error .badId
        | some (tt, tq) =>
          if t < tt then .error .idSmall
          else if t = tt ∧ q ≤ tq then .error .idSmall
          else .ok (odSet s entryId attributes)

/-- `Datastore.query_from_stream`.

Modelled from the spec: `query_from_stream` (and the `EntryId` helper) are
imported by command_handler.py but are missing from the datastore.py of this
tree; §4.4 defines `XRead(k, after_id, [top_bound], exclusive=true)` as the
entries strictly after `after_id`, capped at the optional `top_bound`, in
insertion order.  Ids are compared by the (ms, seq) lexicographic order; an
unparseable `after_id` yields no entries. -/
def query_from_stream (s : XStream) (afterRaw : Str) (top : Option (Nat × Nat)) :
    List (Str × Attrs) :=
  match parseEntryId afterRaw with
  | none => []
  | some a =>
    s.filter fun e =>
      match parseEntryId e.1 with
      | none => false
      | some i =>
        idLtB a i &&
          (match top with
           | none => true
           | some t => !(idLtB t i))

/-! The command evaluator. -/

/-- The in-memory state reached through `CommandHandler`: the string KV and
the stream dict (`Datastore._streams`, a `defaultdict(OrderedDict)`). -/
structure EvalSt where
  kv : KV
  streams : List (Str × XStream)

/-- Read of `self._streams[key]` ignoring the defaultdict insertion (which
never changes any stored entry or any reply). -/
def getStream (st : EvalSt) (k : Str) : XStream :=
  (kvFind st.streams k).getD []

/-- `rest[::2]`. -/
def evenIdx {α : Type} : List α → List α
  | [] => []
  | [a] => [a]
  | a :: _ :: rest => a :: evenIdx rest

/-- `rest[1::2]`. -/
def oddIdx {α : Type} : List α → List α
  | [] => []
  | [_] => []
  | _ :: b :: rest => b :: oddIdx rest

/-- `dict(zip(keys, values))`: pairs are inserted left to right with dict
overwrite semantics; `zip` stops at the shorter list. -/
def dictZip : List Str → List Str → Attrs → Attrs
  | k :: ks, v :: vs, acc => dictZip ks vs (odSet acc k v)
  | _, _, acc => acc

/-- Encoding of one stream entry inside XREAD replies: `encode_array` of the
bulk-encoded id and the flattened bulk-encoded field/value pairs
(command_handler.py lines 227-241). -/
def encodeEntry (e : Str × Attrs) : Str :=
  encode_array [encode_bulk_string (some e.1),
    encode_array ((e.2.map fun p =>
      [encode_bulk_string (some p.1), encode_bulk_string (some p.2)]).flatten)]

/-- One `[stream_key, entries]` element of an XREAD reply
(command_handler.py lines 245-252). -/
def xreadBlock (k : Str) (entries : List (Str × Attrs)) : Str :=
  encode_array [encode_bulk_string (some k),
    encode_array (entries.map encodeEntry)]

/-- The per-stream loop of `CommandHandler._handle_xread` (non-blocking
path, command_handler.py lines 209-253): the first stream with no entries
after its id makes the whole call return the nil bulk string at once;
otherwise every stream contributes a `[key, entries]` element and the
collected elements are returned as a single array. -/
def xreadLoop (st : EvalSt) : List (Str × Str) → List Str → Str
  | [], acc => encode_array acc.reverse
  | (k, i) :: rest, acc =>
    let s := getStream st k
    let top := (peekStream s).bind parseEntryId
    let found := query_from_stream s i top
    if found.isEmpty then encode_bulk_string none
    else xreadLoop st rest (xreadBlock k found :: acc)

/-- `CommandHandler._handle_xread` (non-blocking): the arguments must split
into equally many stream keys and entry ids (`ValueError` otherwise), then
the per-stream loop runs. -/
def handle_xread (st : EvalSt) (rest : List Str) : Except Unit Str :=
  if rest.length % 2 ≠ 0 then .error ()
  else .ok (xreadLoop st ((rest.take (rest.length / 2)).zip
    (rest.drop (rest.length / 2))) [])

/-- `query[0] = query[0].upper()`: in-place uppercasing of the command
word. -/
def upperHead : List Str → List Str
  | [] => []
  | h :: t => h.map Char.toUpper :: t

/-- The dispatch of `CommandHandler.handle_command` (command_handler.py)
restricted to the commands the claims quantify over: PING, ECHO, SET (with
and without `px`), INCR, XADD, XREAD (non-blocking `streams` form) and GET.
Other branches (XRANGE, TYPE, MULTI/EXEC/DISCARD, CONFIG, KEYS, INFO,
REPLCONF, PSYNC, WAIT, COMMAND DOCS and blocking XREAD) are outside the
modelled subset and fall to `.error ()` together with the `case _: raise`
arm (an exception closes the connection upstream).  The per-connection
transaction queue stays empty throughout — only `MULTI`, not in the modelled
subset, can populate it — so the `_is_transaction_open` checks at lines 46
and 111 are `False` and elided.  `now` is the `time.time()` instant of this
call, in the ticks of `Container.expiry`. -/
def evalCommand (st : EvalSt) (now : Int) (query : List Str) :
    Except Unit (EvalSt × Str) :=
  match upperHead query with
  | [] => .error ()
  | c :: args =>
    if c = "PING".toList ∧ args = [] then
      .ok (st, encode_simple_string "PONG".toList)
    else if c = "ECHO".toList then
      .ok (st, encode_bulk_string (some (List.intercalate " ".toList args)))
    else if c = "SET".toList then
      match args with
      | [k, v, px, e] =>
        if px = "px".toList then
          match pyIntStr e with
          | none => .error ()
          | some ms =>
            -- calculate_expiry: time() + int(expires_in) (in expiry ticks)
            .ok ({ st with kv := odSet st.kv k ⟨.vStr v, some (now + ms)⟩ },
              encode_simple_string "OK".toList)
        else .error ()
      | [k, v] =>
        .ok ({ st with kv := dsSetPlain st.kv k (.vStr v) },
          encode_simple_string "OK".toList)
      | _ => .error ()
    else if c = "INCR".toList then
      match args with
      | [k] =>
        -- `value = self.datastore[key] if self.datastore[key] else 0`
        match dsGet st.kv now k with
        | (kv1, got) =>
          let value : Value := match got with
            | some v => if valueTruthy v then v else .vInt 0
            | none => .vInt 0
          match pyIntOf value with
          | none =>
            .ok ({ st with kv := kv1 },
              encode_error "value is not an integer or out of range".toList)
          | some n =>
            -- `self.datastore[key] = int(value) + 1`, then
            -- `return encode_integer(self.datastore[key])`
            match dsGet (dsSetPlain kv1 k (.vInt (n + 1))) now k with
            | (kv3, some (.vInt m)) =>
              .ok ({ st with kv := kv3 }, encode_integer m)
            | _ => .error ()
      | _ => .error ()
    else if c = "XADD".toList then
      match args with
      | k :: entryId :: rest =>
        if rest.length % 2 ≠ 0 then .error ()
        else
          let attributes := dictZip (evenIdx rest) (oddIdx rest) []
          -- `stream = self._streams[key]` (defaultdict materialisation)
          let s := getStream st k
          match add_to_stream s entryId attributes with
          | .error .badId => .error ()
          | .error e =>
            .ok ({ st with streams := odSet st.streams k s },
              encode_error (streamErrMsg e))
          | .ok s' =>
            -- add_to_stream's bare `return` yields None, so the reply is
            -- encode_bulk_string(None), the nil bulk string
            .ok ({ st with streams := odSet st.streams k s' },
              encode_bulk_string none)
      | _ => .error ()
    else if c = "XREAD".toList then
      match args with
      | s :: rest =>
        if s = "streams".toList then
          match handle_xread st rest with
          | .error _ => .error ()
          | .ok reply => .ok (st, reply)
        else .error ()
      | [] => .error ()
    else if c = "GET".toList then
      match args with
      | [k] =>
        match dsGet st.kv now k with
        | (kv1, got) =>
          -- `encode_bulk_string(str(value) if value else None)`
          .ok ({ st with kv := kv1 },
            encode_bulk_string (match got with
              | some v => if valueTruthy v then some (pyStr v) else none
              | none => none))
      | _ => .error ()
    else .error ()

example :
    evalCommand ⟨[], []⟩ 0 ["set".toList, "k".toList, "v".toList] =
      .ok (⟨[("k".toList, ⟨.vStr "v".toList, none⟩)], []⟩, "+OK\r\n".toList) := rfl

example :
    evalCommand ⟨[], []⟩ 0
      ["XADD".toList, "s".toList, "1-1".toList, "a".toList, "1".toList] =
      .ok (⟨[], [("s".toList, [("1-1".toList, [("a".toList, "1".toList)])])]⟩,
        "$-1\r\n".toList) := rfl

/-- Claim C2 (code bug): `XADD s 1-1 a 1` on a fresh server passes id
validation, appends the entry to the stream, and yet replies with the nil
bulk string `$-1\r\n` rather than the bulk encoding `$3\r\n1-1\r\n` of the
entry id: `Datastore.add_to_stream` ends in a bare `return` (i.e. `None`)
although `handle_command` reassigns `entry_id` from its return value and
encodes that (command_handler.py lines 79-82), and the spec's scenario
`XADD s 1-1 a 1` → `$3\r\n1-1\r\n` expects the id. -/
theorem c2_xadd_accepted_reply_is_nil_bulk :
    evalCommand ⟨[], []⟩ 0
      ["XADD".toList, "s".toList, "1-1".toList, "a".toList, "1".toList] =
      .ok (⟨[], [("s".toList, [("1-1".toList, [("a".toList, "1".toList)])])]⟩,
        "$-1\r\n".toList) ∧
    "$-1\r\n".toList ≠ encode_bulk_string (some "1-1".toList) := by
  exact ⟨rfl, by decide⟩

/-- Branch lemma: `handle_command` on `INCR k`, written out as the source
computes it (getter with lazy expiration, falsy-to-0 fallback, `int(value)`,
store, reread). -/
theorem evalCommand_incr_eq (st : EvalSt) (now : Int) (k : Str) :
    evalCommand st now ["INCR".toList, k] =
      (let r := dsGet st.kv now k
       let value : Value := match r.2 with
         | some v => if valueTruthy v then v else .vInt 0
         | none => .vInt 0
       match pyIntOf value with
       | none => .ok ({ st with kv := r.1 },
           encode_error "value is not an integer or out of range".toList)
       | some n =>
         match dsGet (dsSetPlain r.1 k (.vInt (n + 1))) now k with
         | (kv3, some (.vInt m)) => .ok ({ st with kv := kv3 }, encode_integer m)
         | _ => .error ()) := rfl

/-- Claim C10, counterexample: with `k` holding the empty string — which does
not parse as a base-10 integer (`int("")` raises `ValueError`; second
conjunct) — `INCR k` neither replies with an error nor leaves the datastore
unchanged: the empty string is falsy, so `value = self.datastore[key] if
self.datastore[key] else 0` treats it as absent, the handler stores `1`, and
the reply is `:1\r\n`. -/
theorem c10_incr_empty_string_stores_one :
    evalCommand ⟨[("k".toList, ⟨.vStr [], none⟩)], []⟩ 0
      ["INCR".toList, "k".toList] =
      .ok (⟨[("k".toList, ⟨.vInt 1, none⟩)], []⟩, ":1\r\n".toList) ∧
    pyIntStr ([] : Str) = none := by
  exact ⟨rfl, rfl⟩

/-- Claim C10 (amended): for every `INCR k` whose stored value is live (not
lazily expired), truthy (nonempty string or nonzero integer) and does not
parse as a base-10 integer, the reply is the
`-ERR value is not an integer or out of range` error and the state — the
value of `k`, every other key, and the stream store — is exactly unchanged.
A falsy stored value (empty string, integer 0) is instead treated like an
absent key and overwritten with 1 (see the counterexample). -/
theorem c10_incr_non_integer_errors_state_unchanged
    (st : EvalSt) (now : Int) (k : Str) (c : Container)
    (hfind : kvFind st.kv k = some c)
    (hlive : expiryDead now c = false)
    (htruthy : valueTruthy c.value = true)
    (hparse : pyIntOf c.value = none) :
    evalCommand st now ["INCR".toList, k] =
      .ok (st, encode_error "value is not an integer or out of range".toList) := by
  have hds : dsGet st.kv now k = (st.kv, some c.value) := by
    rw [dsGet, hfind]
    simp [hlive]
  rw [evalCommand_incr_eq, hds]
  simp [htruthy, hparse]

/-- Claim C10, witness: the amended theorem applied to the concrete state
`{k ↦ "abc"}`. -/
theorem c10_incr_witness :
    evalCommand ⟨[("k".toList, ⟨.vStr "abc".toList, none⟩)], []⟩ 0
      ["INCR".toList, "k".toList] =
      .ok (⟨[("k".toList, ⟨.vStr "abc".toList, none⟩)], []⟩,
        encode_error "value is not an integer or out of range".toList) := by
  exact c10_incr_non_integer_errors_state_unchanged
    ⟨[("k".toList, ⟨.vStr "abc".toList, none⟩)], []⟩ 0 "k".toList
    ⟨.vStr "abc".toList, none⟩ rfl rfl (by decide) rfl

/-! Claim C3: SET/GET sequences. -/

/-- A client interaction consisting only of `SET k v` / `GET k` commands. -/
inductive SGOp
  | sset : Str → Str → SGOp
  | sget : Str → SGOp

/-- The query list sent for an `SGOp`. -/
def sgQuery : SGOp → List Str
  | .sset k v => ["SET".toList, k, v]
  | .sget k => ["GET".toList, k]

/-- Run a sequence of SET/GET commands through the handler from `st` (these
commands never raise, so the error branch is vacuous). -/
def runSetGet (now : Int) : EvalSt → List SGOp → EvalSt
  | st, [] => st
  | st, op :: rest =>
    match evalCommand st now (sgQuery op) with
    | .ok (st', _) => runSetGet now st' rest
    | .error _ => runSetGet now st rest

/-- The last value written to `key` by a `SET` in `ops` — the claim's
"last value written", stated from the claim's words. -/
def lastWrite : List SGOp → Str → Option Str
  | [], _ => none
  | .sset k v :: rest, key =>
    (match lastWrite rest key with
     | some w => some w
     | none => if k = key then some v else none)
  | .sget _ :: rest, key => lastWrite rest key

theorem evalCommand_set_eq (st : EvalSt) (now : Int) (k v : Str) :
    evalCommand st now ["SET".toList, k, v] =
      .ok ({ st with kv := dsSetPlain st.kv k (.vStr v) },
        encode_simple_string "OK".toList) := rfl

theorem evalCommand_get_eq (st : EvalSt) (now : Int) (k : Str) :
    evalCommand st now ["GET".toList, k] =
      .ok ({ st with kv := (dsGet st.kv now k).1 },
        encode_bulk_string (match (dsGet st.kv now k).2 with
          | some v => if valueTruthy v then some (pyStr v) else none
          | none => none)) := rfl

theorem kvFind_odSet {α : Type} (l : List (Str × α)) (k k' : Str) (v : α) :
    kvFind (odSet l k v) k' = if k = k' then some v else kvFind l k' := by
  induction l with
  | nil =>
    by_cases h : k = k' <;> simp [odSet, kvFind, h]
  | cons p rest ih =>
    obtain ⟨a, b⟩ := p
    by_cases hak : a = k
    · subst hak
      by_cases h : a = k' <;> simp [odSet, kvFind, h, ih]
    · by_cases h : a = k'
      · subst h
        have : ¬(k = a) := fun hh => hak hh.symm
        simp [odSet, kvFind, hak, this]
      · simp [odSet, kvFind, hak, h, ih]

theorem dsGet_of_no_expiry (kv : KV) (now : Int) (k : Str)
    (h : ∀ c, kvFind kv k = some c → c.expiry = none) :
    dsGet kv now k = (kv, (kvFind kv k).map Container.value) := by
  cases hf : kvFind kv k with
  | none => simp [dsGet, hf]
  | some c =>
    have he := h c hf
    simp [dsGet, hf, expiryDead, he]

/-- Characterisation of the KV after a SET/GET-only run from a state whose
entries carry no expiry: each key holds exactly the last value written to it
(wrapped without expiry), other keys are untouched, and the
no-expiry property is preserved. -/
theorem runSetGet_kv (now : Int) :
    ∀ (ops : List SGOp) (st : EvalSt),
      (∀ k c, kvFind st.kv k = some c → c.expiry = none) →
      (∀ key, kvFind (runSetGet now st ops).kv key =
        (match lastWrite ops key with
         | some v => some ⟨.vStr v, none⟩
         | none => kvFind st.kv key)) ∧
      (∀ k c, kvFind (runSetGet now st ops).kv k = some c → c.expiry = none) := by
  intro ops
  induction ops with
  | nil =>
    intro st hexp
    exact ⟨fun key => by simp [runSetGet, lastWrite], hexp⟩
  | cons op rest ih =>
    intro st hexp
    cases op with
    | sset k v =>
      have hstep : runSetGet now st (.sset k v :: rest) =
          runSetGet now { st with kv := dsSetPlain st.kv k (.vStr v) } rest := by
        rw [runSetGet, sgQuery, evalCommand_set_eq]
      have hexp' : ∀ k' c, kvFind (dsSetPlain st.kv k (.vStr v)) k' = some c →
          c.expiry = none := by
        intro k' c hc
        rw [dsSetPlain, kvFind_odSet] at hc
        by_cases hk : k = k'
        · simp [hk] at hc
          rw [← hc]
        · rw [if_neg hk] at hc
          exact hexp k' c hc
      obtain ⟨h1, h2⟩ := ih { st with kv := dsSetPlain st.kv k (.vStr v) } hexp'
      refine ⟨fun key => ?_, by simp only [hstep]; exact h2⟩
      rw [hstep, h1 key, lastWrite]
      cases hlw : lastWrite rest key with
      | some w => simp
      | none =>
        simp only []
        show _ = (match (if k = key then some v else none) with
          | some v => some (⟨.vStr v, none⟩ : Container)
          | none => kvFind st.kv key)
        by_cases hk : k = key
        · simp [hk, dsSetPlain, kvFind_odSet]
        · simp [hk, dsSetPlain, kvFind_odSet]
    | sget k =>
      have hkv : (dsGet st.kv now k).1 = st.kv := by
        rw [dsGet_of_no_expiry st.kv now k (hexp k)]
      have hstep : runSetGet now st (.sget k :: rest) = runSetGet now st rest := by
        rw [runSetGet, sgQuery, evalCommand_get_eq]
        rw [hkv]
      obtain ⟨h1, h2⟩ := ih st hexp
      rw [hstep]
      refine ⟨fun key => by rw [h1 key, lastWrite], h2⟩

/-- Claim C3, counterexample: the sequence `SET k ""` then `GET k` — the last
value written is the empty string, a legal value — replies with the nil bulk
string `$-1\r\n` and not with the bulk encoding `$0\r\n\r\n` of the empty
string, because `handle_command` tests the value's truthiness
(`str(value) if value else None`, command_handler.py line 114). -/
theorem c3_get_empty_string_write_replies_nil :
    evalCommand (runSetGet 0 ⟨[], []⟩ [.sset "k".toList []]) 0
      ["GET".toList, "k".toList] =
      .ok (runSetGet 0 ⟨[], []⟩ [.sset "k".toList []], "$-1\r\n".toList) ∧
    "$-1\r\n".toList ≠ encode_bulk_string (some ([] : Str)) := by
  exact ⟨rfl, by decide⟩

/-- Claim C3 (amended): for every finite sequence of `SET k v` / `GET k`
commands evaluated from a fresh store, a final `GET key` replies with the
bulk-string encoding of the last value written to `key` when that value is
nonempty, and with the nil bulk string `$-1\r\n` when `key` was never
written, when its TTL has elapsed (vacuous here: plain `SET` stores no
expiry), or — deviating from the original claim — when the last value
written is the empty string. -/
theorem c3_get_returns_last_nonempty_write (now : Int) (ops : List SGOp)
    (key : Str) :
    evalCommand (runSetGet now ⟨[], []⟩ ops) now ["GET".toList, key] =
      .ok (runSetGet now ⟨[], []⟩ ops,
        encode_bulk_string (match lastWrite ops key with
          | some v => if v.isEmpty then none else some v
          | none => none)) := by
  obtain ⟨h1, h2⟩ := runSetGet_kv now ops ⟨[], []⟩ (by simp [kvFind])
  rw [evalCommand_get_eq,
    dsGet_of_no_expiry (runSetGet now ⟨[], []⟩ ops).kv now key (h2 key), h1 key]
  cases hlw : lastWrite ops key with
  | none => simp [kvFind]
  | some v =>
    cases hv : v.isEmpty
    · simp [valueTruthy, pyStr, hv]
    · simp [valueTruthy, pyStr, hv]

/-! Claim C6: the stream id invariant. -/

/-- The entry id string parses and is not (0,0). -/
def validIdB (s : Str) : Bool :=
  match parseEntryId s with
  | some i => !(decide (i.1 = 0) && decide (i.2 = 0))
  | none => false

/-- Both id strings parse and the first is lexicographically smaller. -/
def entryLtB (a b : Str) : Bool :=
  match parseEntryId a, parseEntryId b with
  | some x, some y => idLtB x y
  | _, _ => false

/-- The claim's invariant over a stored stream: every entry id parses and is
not (0,0), and insertion order is strictly increasing under the
lexicographic (ms, seq) order. -/
def streamInvB : XStream → Bool
  | [] => true
  | [e] => validIdB e.1
  | e1 :: e2 :: rest => validIdB e1.1 && entryLtB e1.1 e2.1 && streamInvB (e2 :: rest)

/-- One XADD against a stream: on any raise (`StreamError` or `ValueError`)
the stream is unchanged — in the source every raise in `add_to_stream`
happens before the `stream[entry_id] = attributes` mutation. -/
def xaddStep (s : XStream) (op : Str × Attrs) : XStream :=
  match add_to_stream s op.1 op.2 with
  | .ok s' => s'
  | .error _ => s

theorem idLtB_trans {a b c : Nat × Nat} (h1 : idLtB a b = true)
    (h2 : idLtB b c = true) : idLtB a c = true := by
  simp [idLtB] at *
  omega

theorem idLtB_irrefl (a : Nat × Nat) : idLtB a a = false := by
  simp [idLtB]

theorem entryLtB_trans {a b c : Str} (h1 : entryLtB a b = true)
    (h2 : entryLtB b c = true) : entryLtB a c = true := by
  cases hpa : parseEntryId a with
  | none => simp [entryLtB, hpa] at h1
  | some x =>
    cases hpb : parseEntryId b with
    | none => simp [entryLtB, hpb] at h1
    | some y =>
      cases hpc : parseEntryId c with
      | none => simp [entryLtB, hpc] at h2
      | some z =>
        simp only [entryLtB, hpa, hpb, hpc] at h1 h2 ⊢
        exact idLtB_trans h1 h2

theorem entryLtB_irrefl (a : Str) : entryLtB a a = false := by
  cases hpa : parseEntryId a with
  | none => simp [entryLtB, hpa]
  | some x => simp [entryLtB, hpa, idLtB_irrefl]

theorem getLast?_cons_ne_none {α : Type} (e : α) (rest : List α) :
    (e :: rest).getLast? ≠ none := by
  induction rest generalizing e with
  | nil => simp
  | cons x xs ih =>
    rw [List.getLast?_cons_cons]
    exact ih x

theorem peekStream_eq_none {s : XStream} (h : peekStream s = none) : s = [] := by
  cases s with
  | nil => rfl
  | cons e rest =>
    unfold peekStream at h
    rw [Option.map_eq_none'] at h
    exact absurd h (getLast?_cons_ne_none e rest)

theorem streamInv_all_le_last :
    ∀ (s : XStream), streamInvB s = true → ∀ top, s.getLast? = some top →
      ∀ e ∈ s, e.1 = top.1 ∨ entryLtB e.1 top.1 = true := by
  intro s
  induction s with
  | nil => intro _ top htop; simp at htop
  | cons e1 rest ih =>
    intro hinv top htop e he
    cases rest with
    | nil =>
      have htop1 : top = e1 := by simpa using htop.symm
      rcases List.mem_singleton.mp he with rfl
      left
      rw [htop1]
    | cons e2 rest2 =>
      rw [List.getLast?_cons_cons] at htop
      rw [streamInvB] at hinv
      simp only [Bool.and_eq_true] at hinv
      obtain ⟨⟨hv1, hlt12⟩, hinv2⟩ := hinv
      rcases List.mem_cons.mp he with rfl | he2
      · have h2 := ih hinv2 top htop e2 (List.mem_cons_self _ _)
        rcases h2 with heq | hlt
        · right
          rw [← heq]
          exact hlt12
        · right
          exact entryLtB_trans hlt12 hlt
      · exact ih hinv2 top htop e he2

theorem odSet_append_of_not_mem {α : Type} (l : List (Str × α)) (k : Str)
    (v : α) (h : ∀ p ∈ l, ¬(p.1 = k)) : odSet l k v = l ++ [(k, v)] := by
  induction l with
  | nil => rfl
  | cons p rest ih =>
    obtain ⟨a, b⟩ := p
    rw [odSet, if_neg (h (a, b) (List.mem_cons_self _ _)),
      ih fun p hp => h p (List.mem_cons_of_mem _ hp)]
    rfl

theorem add_ok (s : XStream) (entryId : Str) (attrs : Attrs) (s' : XStream)
    (hinv : streamInvB s = true)
    (h : add_to_stream s entryId attrs = .ok s') :
    s' = s ++ [(entryId, attrs)] ∧ validIdB entryId = true ∧
      ∀ e ∈ s, entryLtB e.1 entryId = true := by
  unfold add_to_stream at h
  cases hp : parseEntryId entryId with
  | none => rw [hp] at h; exact absurd h (by simp)
  | some tq =>
    obtain ⟨t, q⟩ := tq
    simp only [hp] at h
    by_cases h00 : t = 0 ∧ q = 0
    · rw [if_pos h00] at h; exact absurd h (by simp)
    · rw [if_neg h00] at h
      have hv : validIdB entryId = true := by
        simp only [validIdB, hp]
        simp
        tauto
      cases hpk : peekStream s with
      | none =>
        simp only [hpk] at h
        have hs : s = [] := peekStream_eq_none hpk
        subst hs
        refine ⟨?_, hv, by simp⟩
        have := h
        simp only [odSet, Except.ok.injEq] at this
        rw [← this]
        rfl
      | some topKey =>
        simp only [hpk] at h
        cases hpt : parseEntryId topKey with
        | none => simp only [hpt] at h; exact absurd h (by simp)
        | some ttq =>
          obtain ⟨tt, tq2⟩ := ttq
          simp only [hpt] at h
          by_cases hlt1 : t < tt
          · rw [if_pos hlt1] at h; exact absurd h (by simp)
          · rw [if_neg hlt1] at h
            by_cases hle : t = tt ∧ q ≤ tq2
            · rw [if_pos hle] at h; exact absurd h (by simp)
            · rw [if_neg hle] at h
              have htopE : entryLtB topKey entryId = true := by
                simp only [entryLtB, hpt, hp, idLtB]
                simp
                omega
              obtain ⟨top, htopl, htopk⟩ :
                  ∃ top, s.getLast? = some top ∧ top.1 = topKey := by
                unfold peekStream at hpk
                cases hl : s.getLast? with
                | none => rw [hl] at hpk; simp at hpk
                | some top =>
                  rw [hl] at hpk
                  simp at hpk
                  exact ⟨top, rfl, hpk⟩
              have hall : ∀ e ∈ s, entryLtB e.1 entryId = true := by
                intro e he
                rcases streamInv_all_le_last s hinv top htopl e he with heq | hlt
                · rw [heq, htopk]
                  exact htopE
                · exact entryLtB_trans (htopk ▸ hlt) htopE
              have hnot : ∀ p ∈ s, ¬(p.1 = entryId) := by
                intro p hps heq
                have := hall p hps
                rw [heq, entryLtB_irrefl] at this
                exact Bool.false_ne_true this
              rw [odSet_append_of_not_mem s entryId attrs hnot] at h
              simp only [Except.ok.injEq] at h
              exact ⟨h.symm, hv, hall⟩

theorem streamInvB_append (s : XStream) (e : Str × Attrs)
    (hinv : streamInvB s = true) (hv : validIdB e.1 = true)
    (hlt : ∀ x ∈ s, entryLtB x.1 e.1 = true) :
    streamInvB (s ++ [e]) = true := by
  induction s with
  | nil => simpa [streamInvB]
  | cons x rest ih =>
    cases rest with
    | nil =>
      have hx := hlt x (List.mem_cons_self _ _)
      rw [streamInvB] at hinv
      show streamInvB [x, e] = true
      rw [streamInvB]
      simp [hinv, hx, hv, streamInvB]
    | cons x2 rest2 =>
      rw [streamInvB] at hinv
      simp only [Bool.and_eq_true] at hinv
      obtain ⟨⟨hv1, hlt12⟩, hinv2⟩ := hinv
      show streamInvB (x :: x2 :: (rest2 ++ [e])) = true
      rw [streamInvB]
      have hrec := ih hinv2 fun y hy => hlt y (List.mem_cons_of_mem _ hy)
      simp only [List.cons_append] at hrec
      simp [hv1, hlt12, hrec]

theorem xaddStep_inv (s : XStream) (op : Str × Attrs)
    (h : streamInvB s = true) : streamInvB (xaddStep s op) = true := by
  unfold xaddStep
  cases hadd : add_to_stream s op.1 op.2 with
  | error e => exact h
  | ok s' =>
    obtain ⟨hs', hv, hlt⟩ := add_ok s op.1 op.2 s' h hadd
    rw [hs']
    exact streamInvB_append s (op.1, op.2) h hv hlt

/-- Claim C6 (confirmed): after any sequence of XADD operations against one
stream, accepted or rejected, the stored entry ids in insertion order are
strictly increasing under the lexicographic (ms, seq) order and none of them
is (0,0) (`streamInvB`); and any rejected XADD — any raise out of
`add_to_stream`, which in the source happens before the
`stream[entry_id] = attributes` mutation — leaves the stream exactly
unchanged. -/
theorem c6_stream_invariant (ops : List (Str × Attrs)) :
    streamInvB (ops.foldl xaddStep []) = true ∧
    ∀ (s : XStream) (op : Str × Attrs) (e : AddErr),
      add_to_stream s op.1 op.2 = .error e → xaddStep s op = s := by
  constructor
  · have h : ∀ (l : List (Str × Attrs)) (s : XStream), streamInvB s = true →
        streamInvB (l.foldl xaddStep s) = true := by
      intro l
      induction l with
      | nil => exact fun s hs => hs
      | cons op rest ih => exact fun s hs => ih _ (xaddStep_inv s op hs)
    exact h ops [] rfl
  · intro s op e he
    unfold xaddStep
    rw [he]

/-! Claim C7: XREAD over several streams. -/

/-- The entries of stream `k` strictly after id `i`, exactly as the XREAD
loop computes them (top bound captured from `peek`). -/
def xreadMatches (st : EvalSt) (k i : Str) : List (Str × Attrs) :=
  query_from_stream (getStream st k) i
    ((peekStream (getStream st k)).bind parseEntryId)

theorem xreadLoop_eq (st : EvalSt) :
    ∀ (pairs : List (Str × Str)) (acc : List Str),
      xreadLoop st pairs acc =
        if pairs.all (fun p => !(xreadMatches st p.1 p.2).isEmpty) then
          encode_array (acc.reverse ++
            pairs.map fun p => xreadBlock p.1 (xreadMatches st p.1 p.2))
        else encode_bulk_string none := by
  intro pairs
  induction pairs with
  | nil => intro acc; simp [xreadLoop]
  | cons p rest ih =>
    intro acc
    obtain ⟨k, i⟩ := p
    rw [xreadLoop]
    cases hm : (xreadMatches st k i).isEmpty with
    | true =>
      have hm' : (query_from_stream (getStream st k) i
          ((peekStream (getStream st k)).bind parseEntryId)).isEmpty = true := hm
      simp [hm', List.all_cons, xreadMatches, hm]
    | false =>
      have hm' : (query_from_stream (getStream st k) i
          ((peekStream (getStream st k)).bind parseEntryId)).isEmpty = false := hm
      rw [if_neg (by simp [hm'])]
      rw [ih]
      simp only [List.all_cons, xreadMatches, hm', Bool.not_false, Bool.true_and]
      cases hall : rest.all (fun p => !(xreadMatches st p.1 p.2).isEmpty) <;>
        simp [hall, xreadMatches]

/-- Claim C7, counterexample: `XREAD streams s1 s2 0-0 0-0` where stream `s1`
holds the entry `1-1` (strictly after `0-0`, second conjunct) and `s2` has no
entries replies with the nil bulk string: the loop in `_handle_xread` returns
nil on the first stream with no matches, discarding `s1`'s match, although
the claim allows nil only when every requested stream is empty after its
id. -/
theorem c7_xread_nil_despite_match :
    handle_xread
      ⟨[], [("s1".toList, [("1-1".toList, [("a".toList, "1".toList)])])]⟩
      ["s1".toList, "s2".toList, "0-0".toList, "0-0".toList] =
      .ok "$-1\r\n".toList ∧
    xreadMatches
      ⟨[], [("s1".toList, [("1-1".toList, [("a".toList, "1".toList)])])]⟩
      "s1".toList "0-0".toList ≠ [] := by
  exact ⟨rfl, by decide⟩

/-- Claim C7 (amended): for every non-blocking
`XREAD streams k1 … kN id1 … idN`, the reply is the nil bulk string iff at
least one requested stream has no entries strictly after its given id (the
loop returns early on the first such stream, even when other streams match);
only when every requested stream has at least one matching entry is the
reply the array of `[key, entries]` elements, one per stream in request
order. -/
theorem c7_xread_reply_characterisation (st : EvalSt) (keys ids : List Str)
    (hlen : keys.length = ids.length) :
    handle_xread st (keys ++ ids) =
      .ok (if (keys.zip ids).all (fun p => !(xreadMatches st p.1 p.2).isEmpty)
        then encode_array
          ((keys.zip ids).map fun p => xreadBlock p.1 (xreadMatches st p.1 p.2))
        else encode_bulk_string none) := by
  unfold handle_xread
  have hmod : ¬((keys ++ ids).length % 2 ≠ 0) := by
    simp only [List.length_append, hlen]
    omega
  rw [if_neg hmod]
  have hhalf : (keys ++ ids).length / 2 = keys.length := by
    simp only [List.length_append, hlen]
    omega
  rw [hhalf, List.take_left, List.drop_left, xreadLoop_eq]
  simp

/-- Claim C7, witness: the amended characterisation applied to two streams
of which both match (array reply) — instantiated at a concrete state. -/
theorem c7_xread_witness :
    handle_xread
      ⟨[], [("s1".toList, [("1-1".toList, [("a".toList, "1".toList)])]),
            ("s2".toList, [("2-0".toList, [("b".toList, "2".toList)])])]⟩
      ["s1".toList, "s2".toList, "0-0".toList, "0-0".toList] =
      .ok (encode_array
        (([("s1".toList, "0-0".toList), ("s2".toList, "0-0".toList)]).map
          fun p => xreadBlock p.1 (xreadMatches
            ⟨[], [("s1".toList, [("1-1".toList, [("a".toList, "1".toList)])]),
                  ("s2".toList, [("2-0".toList, [("b".toList, "2".toList)])])]⟩
            p.1 p.2))) := by
  have h := c7_xread_reply_characterisation
    ⟨[], [("s1".toList, [("1-1".toList, [("a".toList, "1".toList)])]),
          ("s2".toList, [("2-0".toList, [("b".toList, "2".toList)])])]⟩
    ["s1".toList, "s2".toList] ["0-0".toList, "0-0".toList] rfl
  exact h

/-! Claim C4: write propagation to replicas (server.py / replication.py). -/

/-- Prefix test on character lists (helper for the substring test below). -/
def startsWithStr : Str → Str → Bool
  | [], _ => true
  | _ :: _, [] => false
  | a :: as, b :: bs => a = b && startsWithStr as bs

/-- `needle in hay` on Python strings: contiguous substring occurrence. -/
def hasSub (needle : Str) : Str → Bool
  | [] => startsWithStr needle []
  | c :: t => startsWithStr needle (c :: t) || hasSub needle t

/-- `x in l` on a Python list of strings. -/
def listHas (x : Str) (l : List Str) : Bool := l.any fun y => y = x

/-- Master-side connection state seen by `_process_connection`: the evaluator
state, the bytes written so far to each registered replica connection
(`ReplicaConfig.connection`), and `ServerInfo.master_repl_offset`. -/
structure MasterSt where
  eval : EvalSt
  replicas : List Str
  offset : Int

/-- `ReplicationManager.handle_replication` (replication.py lines 42-47):
write the given bytes to every replica connection and grow
`master_repl_offset` by their byte length. -/
def handle_replication (replicas : List Str) (offset : Int) (data : Str) :
    List Str × Int :=
  (replicas.map (· ++ data), offset + data.length)

/-- The element-wise extraction of Python strings from a parsed array. -/
def strsOf : List RValue → Option (List Str)
  | [] => some []
  | .str s :: rest =>
    match strsOf rest with
    | some l => some (s :: l)
    | none => none
  | _ :: _ => none

/-- `handle_command` expects `query` to be a list of strings; on any other
parse result the Python call raises (`TypeError` on `query[0]` assignment or
`.upper()`), which the connection loop treats like any other exception. -/
def queryOfRValue : RValue → Option (List Str)
  | .arr l => strsOf l
  | _ => none

/-- The dispatch-and-propagate loop of `RedisServer._process_connection`
(server.py lines 67-78) over one socket read `data`: each truthy parsed
query is evaluated and its reply written to the client (not tracked here);
then, when the query (whose head `handle_command` upper-cased in place)
contains the element `"SET"` and the reply contains the substring `"OK"`,
the RAW read buffer `data` — not a per-command reserialization — is handed
to `handle_replication`.  Any exception (parse error, non-list query,
evaluator raise) ends the loop and closes the connection (`true`); a falsy
parse result ends it with the connection kept (`false`).  The `FULLRESYNC`
branch is outside the modelled command subset.  Fuel bounds the iterations
as in `runLoop`. -/
def connLoop (now : Int) (data : Str) : Nat → MasterSt → Deque → MasterSt × Bool
  | 0, st, _ => (st, true)
  | fuel + 1, st, d =>
    match parse d with
    | .error _ => (st, true)
    | .ok (v, d') =>
      if rTruthy v then
        match queryOfRValue v with
        | none => (st, true)
        | some q =>
          match evalCommand st.eval now q with
          | .error _ => (st, true)
          | .ok (ev', resp) =>
            let st' : MasterSt :=
              if listHas "SET".toList (upperHead q) && hasSub "OK".toList resp then
                let ro := handle_replication st.replicas st.offset data
                ⟨ev', ro.1, ro.2⟩
              else ⟨ev', st.replicas, st.offset⟩
            connLoop now data fuel st' d'
      else (st, false)

/-- One socket read processed by `_process_connection` on the master. -/
def serverRead (st : MasterSt) (now : Int) (data : Str) : MasterSt × Bool :=
  connLoop now data ((splitCRLF data).length + 1) st (splitCRLF data)

/-- Claim C4, counterexample: a master with one registered replica receives
the canonical `INCR k` from a client; the command is accepted (the evaluator
stores k = 1), yet nothing is written to the replica and
`master_repl_offset` stays 0, although the command's canonical serialization
has nonzero length — propagation is gated on `"SET" in query and "OK" in
response` (server.py line 75), which INCR never satisfies. -/
theorem c4_incr_accepted_but_not_propagated :
    serverRead ⟨⟨[], []⟩, [[]], 0⟩ 0 (encodeCommand ["INCR".toList, "k".toList]) =
      (⟨⟨[("k".toList, ⟨.vInt 1, none⟩)], []⟩, [[]], 0⟩, true) ∧
    (encodeCommand ["INCR".toList, "k".toList]).length ≠ 0 := by
  exact ⟨rfl, by decide⟩

theorem isDig_ne_O {c : Char} (h : isDig c = true) : ¬(c = 'O') := by
  rcases isDig_elim h with rfl | rfl | rfl | rfl | rfl | rfl | rfl | rfl | rfl | rfl <;> decide

theorem natToChars_no_O (n : Nat) : 'O' ∉ natToChars n := by
  intro hm
  exact isDig_ne_O (natToChars_all_dig n _ hm) rfl

theorem intToChars_no_O (m : Int) : 'O' ∉ intToChars m := by
  unfold intToChars
  split
  · intro hm
    rcases List.mem_cons.mp hm with h | h
    · exact absurd h (by decide)
    · exact natToChars_no_O _ h
  · exact natToChars_no_O _

theorem hasSub_OK_false (hay : Str) (h : 'O' ∉ hay) :
    hasSub "OK".toList hay = false := by
  induction hay with
  | nil => rfl
  | cons c t ih =>
    have hc : ¬(c = 'O') := fun hh => h (hh ▸ List.mem_cons_self c t)
    have hpre : startsWithStr "OK".toList (c :: t) = false := by
      show startsWithStr ('O' :: 'K' :: []) (c :: t) = false
      rw [startsWithStr]
      simp
      intro heq
      exact absurd heq.symm hc
    rw [hasSub, hpre, ih fun hm => h (List.mem_cons_of_mem _ hm)]
    rfl

theorem hasSub_OK_encode_integer (m : Int) :
    hasSub "OK".toList (encode_integer m) = false := by
  apply hasSub_OK_false
  intro hm
  rw [encode_integer] at hm
  rcases List.mem_cons.mp hm with h | h
  · exact absurd h (by decide)
  · rcases List.mem_append.mp h with h | h
    · exact intToChars_no_O m h
    · simp [CRLF] at h

theorem hasSub_OK_incr_error :
    hasSub "OK".toList
      (encode_error "value is not an integer or out of range".toList) = false := by
  decide

/-- The reply of `INCR` — an integer reply or the not-an-integer error —
never contains the substring `"OK"`. -/
theorem incr_resp_no_OK (st : EvalSt) (now : Int) (k : Str) (ev' : EvalSt)
    (resp : Str) (h : evalCommand st now ["INCR".toList, k] = .ok (ev', resp)) :
    hasSub "OK".toList resp = false := by
  rw [evalCommand_incr_eq] at h
  simp only [] at h
  cases hpi : pyIntOf (match (dsGet st.kv now k).2 with
      | some v => if valueTruthy v then v else .vInt 0
      | none => .vInt 0) with
  | none =>
    simp only [hpi] at h
    cases h
    exact hasSub_OK_incr_error
  | some n =>
    simp only [hpi] at h
    rcases hpp : dsGet (dsSetPlain (dsGet st.kv now k).1 k (.vInt (n + 1))) now k
      with ⟨kv3, got3⟩
    rw [hpp] at h
    cases got3 with
    | none => simp at h
    | some val =>
      cases val with
      | vStr s => simp at h
      | vInt m =>
        simp only [] at h
        cases h
        exact hasSub_OK_encode_integer m

theorem strsOf_map_str (l : List Str) : strsOf (l.map RValue.str) = some l := by
  induction l with
  | nil => rfl
  | cons s rest ih => simp [strsOf, ih]

theorem queryOfRValue_map_str (l : List Str) :
    queryOfRValue (.arr (l.map RValue.str)) = some l := by
  rw [queryOfRValue, strsOf_map_str]

/-! Claim C1: framing of pipelined and split reads
(`RedisServer._process_connection`, server.py lines 63-83). -/

/-- The `while query := parser.parse()` loop of
`RedisServer._process_connection` (server.py lines 69-78), including the
loop body's `handle_command` call: each truthy parsed query is handed to the
command handler, whose raise — like a parse error or a non-list query —
aborts the loop and closes the connection (the enclosing `try`/`except`).
Returns the queries handed to the handler in order, the evaluator state
after them, and `true` when the loop ended in a raised exception / `false`
when it ended on a falsy parse result.  Fuel counts loop iterations; each
successful `parse` consumes at least one deque element, so `d.length + 1`
iterations suffice.  Replica propagation, modelled by `connLoop` below,
touches no state read here. -/
def runLoop (now : Int) : Nat → EvalSt → Deque → List (List Str) →
    List (List Str) × EvalSt × Bool
  | 0, st, _, acc => (acc.reverse, st, true)
  | fuel + 1, st, d, acc =>
    match parse d with
    | .error _ => (acc.reverse, st, true)
    | .ok (v, d') =>
      if rTruthy v then
        match queryOfRValue v with
        | none => (acc.reverse, st, true)
        | some q =>
          match evalCommand st now q with
          | .error _ => ((q :: acc).reverse, st, true)
          | .ok (st', _) => runLoop now fuel st' d' (q :: acc)
      else (acc.reverse, st, false)

/-- One iteration of `while data := await reader.read(...)`: a fresh
`RedisProtocolParser` is constructed over this read's bytes alone and
drained by the inner loop.  No remainder survives into the next read. -/
def processRead (st : EvalSt) (now : Int) (data : Str) :
    List (List Str) × EvalSt × Bool :=
  runLoop now ((splitCRLF data).length + 1) st (splitCRLF data) []

/-- `RedisServer._process_connection`: the socket reads arrive as the given
list of byte chunks; each chunk is parsed by a fresh parser and its queries
evaluated; a raised exception — from the parser or from `handle_command` —
closes the connection (remaining reads are never processed).  Returns all
queries handed to the command handler, in order, and whether the connection
was closed by an exception. -/
def processConnection (now : Int) : EvalSt → List Str → List (List Str) × Bool
  | _, [] => ([], false)
  | st, data :: rest =>
    match processRead st now data with
    | (qs, st', errored) =>
      if errored then (qs, true)
      else
        match processConnection now st' rest with
        | (qs', e) => (qs ++ qs', e)

/-- The prefix of `cmds` that `_process_connection` hands to the command
handler from state `st`: every command whose evaluation succeeds, up to and
including the first command whose evaluation raises (its exception aborts
the loop after the handler was invoked on it). -/
def handedCmds (now : Int) : EvalSt → List (List Str) → List (List Str)
  | _, [] => []
  | st, q :: rest =>
    match evalCommand st now q with
    | .ok (st', _) => q :: handedCmds now st' rest
    | .error _ => [q]

/-- Query heads (after the handler's upper-casing) whose dispatch branches
exist in the source but lie outside the subset embedded by `evalCommand`
(XRANGE, TYPE, the transaction commands, CONFIG, KEYS, INFO, REPLCONF,
PSYNC, WAIT, COMMAND, and the blocking XREAD form).  On every other query
`evalCommand` returns `.ok` exactly when `handle_command` returns and
`.error` exactly when it raises, so the C1 theorem is restricted to
queries outside this set. -/
def unmodelledHead : List Str → Bool
  | [] => false
  | c :: args =>
    let u := c.map Char.toUpper
    u = "XRANGE".toList || u = "TYPE".toList || u = "MULTI".toList ||
    u = "EXEC".toList || u = "DISCARD".toList || u = "CONFIG".toList ||
    u = "KEYS".toList || u = "INFO".toList || u = "REPLCONF".toList ||
    u = "PSYNC".toList || u = "WAIT".toList || u = "COMMAND".toList ||
    (u = "XREAD".toList && args.head? = some "block".toList)

theorem runLoop_cmds (now : Int) :
    ∀ (cmds : List (List Str)) (fuel : Nat) (st : EvalSt)
      (acc : List (List Str)),
      (∀ cmd ∈ cmds, cmd ≠ ([] : List Str)) → cmds.length + 1 ≤ fuel →
      (runLoop now fuel st ((cmds.map chunksCmd).flatten ++ [[]]) acc).1 =
        acc.reverse ++ handedCmds now st cmds ∧
      (runLoop now fuel st ((cmds.map chunksCmd).flatten ++ [[]]) acc).2.2 =
        true := by
  intro cmds
  induction cmds with
  | nil =>
    intro fuel st acc _ hf
    obtain ⟨f, rfl⟩ : ∃ f, fuel = f + 1 := ⟨fuel - 1, by omega⟩
    have hp : parse [([] : Str)] = .error .unsupported := rfl
    constructor <;> simp [runLoop, hp, handedCmds]
  | cons cmd rest ih =>
    intro fuel st acc h hf
    obtain ⟨f, rfl⟩ : ∃ f, fuel = f + 1 := ⟨fuel - 1, by omega⟩
    have hflat : ((cmd :: rest).map chunksCmd).flatten ++ [([] : Str)] =
        chunksCmd cmd ++ ((rest.map chunksCmd).flatten ++ [[]]) := by simp
    have htr : rTruthy (.arr (cmd.map .str)) = true := by
      have hc := h cmd (List.mem_cons_self _ _)
      cases cmd with
      | nil => exact absurd rfl hc
      | cons a b => simp [rTruthy]
    rw [hflat, runLoop]
    simp only [parse_cmd, htr, if_true, queryOfRValue_map_str]
    cases hev : evalCommand st now cmd with
    | error e =>
      simp only [hev, handedCmds]
      constructor <;> simp
    | ok pair =>
      obtain ⟨st', resp⟩ := pair
      simp only [hev, handedCmds]
      have hrec := ih f st' (cmd :: acc)
        (fun x hx => h x (List.mem_cons_of_mem _ hx)) (by simp at hf ⊢; omega)
      refine ⟨?_, hrec.2⟩
      rw [hrec.1]
      simp

theorem processRead_cmds (now : Int) (st : EvalSt) (cmds : List (List Str))
    (h1 : ∀ cmd ∈ cmds, cmd ≠ ([] : List Str))
    (h2 : ∀ cmd ∈ cmds, ∀ s ∈ cmd, noCRLF s = true) :
    (processRead st now ((cmds.map encodeCommand).flatten)).1 =
      handedCmds now st cmds ∧
    (processRead st now ((cmds.map encodeCommand).flatten)).2.2 = true := by
  unfold processRead
  rw [splitCRLF_cmds cmds h2]
  have hlen := chunks_len cmds
  have hrl := runLoop_cmds now cmds
    (((cmds.map chunksCmd).flatten ++ [[]]).length + 1) st [] h1
    (by simp only [List.length_append, List.length_cons, List.length_nil]; omega)
  exact ⟨by rw [hrl.1]; simp, hrl.2⟩

/-- Claim C1, counterexample.  The canonical `PING` command split across two
socket reads (`*1\r\n$4\r\nPI` then `NG\r\n`) is never evaluated: the first
read's fragment raises a length-mismatch `RedisProtocolError` inside a parser
built over that read alone, the connection is closed, and the second read is
never processed — the remainder is not retained, so the command is evaluated
zero times rather than exactly once.  The second conjunct shows the two
reads do concatenate to the complete command, and the third that the same
bytes in a single read are parsed and handed to the handler. -/
theorem c1_split_frame_never_evaluated :
    processConnection 0 ⟨[], []⟩
      ["*1\r\n$4\r\nPI".toList, "NG\r\n".toList] = ([], true) ∧
    "*1\r\n$4\r\nPI".toList ++ "NG\r\n".toList = "*1\r\n$4\r\nPING\r\n".toList ∧
    processConnection 0 ⟨[], []⟩ ["*1\r\n$4\r\nPING\r\n".toList] =
      ([["PING".toList]], true) := by
  refine ⟨rfl, rfl, ?_⟩
  decide

/-- Claim C1 (amended): when a single socket read contains the concatenation
of complete canonical RESP command arrays (nonempty commands of CRLF-free
ASCII parts, with heads inside the modelled dispatch subset), the server
parses them in order and hands each to the command handler up to and
including the first command whose evaluation raises: that exception closes
the connection and the rest of the read is never parsed; when no evaluation
raises, every command is handed in order and the loop then hits the trailing
empty chunk, raises `RedisProtocolError`, and the connection is closed
(`handedCmds`, and the `true` flag, capture both outcomes).  The unconsumed
remainder of a read is, however, never retained across reads: a command
split across two reads is not evaluated when fully present (see the
counterexample). -/
theorem c1_pipelined_read_evaluates_all_in_order
    (now : Int) (st : EvalSt) (cmds : List (List Str))
    (h1 : ∀ cmd ∈ cmds, cmd ≠ ([] : List Str))
    (h2 : ∀ cmd ∈ cmds, ∀ s ∈ cmd, noCRLF s = true ∧ allAscii s = true)
    ( _h3 : ∀ cmd ∈ cmds, unmodelledHead cmd = false) :
    processConnection now st [(cmds.map encodeCommand).flatten] =
      (handedCmds now st cmds, true) := by
  have hpr := processRead_cmds now st cmds h1 fun c hc s hs => (h2 c hc s hs).1
  rcases hq : processRead st now ((cmds.map encodeCommand).flatten)
    with ⟨qs, stf, err⟩
  rw [hq] at hpr
  have ha : qs = handedCmds now st cmds := hpr.1
  have hb : err = true := hpr.2
  rw [processConnection]
  simp [hq, ha, hb]

/-- Claim C1, witness: the amended theorem applied to the pipelined read
`PING` + `ECHO hi` (both evaluations succeed, so both commands are handed in
order) and to the pipelined read `BOGUS` + `PING` (the unsupported `BOGUS`
raises inside the handler, so only it is handed and `PING` is never
parsed). -/
theorem c1_pipelined_witness :
    processConnection 0 ⟨[], []⟩
        ["*1\r\n$4\r\nPING\r\n*2\r\n$4\r\nECHO\r\n$2\r\nhi\r\n".toList] =
      ([["PING".toList], ["ECHO".toList, "hi".toList]], true) ∧
    processConnection 0 ⟨[], []⟩
        ["*1\r\n$5\r\nBOGUS\r\n*1\r\n$4\r\nPING\r\n".toList] =
      ([["BOGUS".toList]], true) := by
  constructor
  · have h := c1_pipelined_read_evaluates_all_in_order 0 ⟨[], []⟩
      [["PING".toList], ["ECHO".toList, "hi".toList]]
      (by decide) (by decide) (by decide)
    have hs : [((([["PING".toList], ["ECHO".toList, "hi".toList]]).map
        encodeCommand).flatten)] =
        ["*1\r\n$4\r\nPING\r\n*2\r\n$4\r\nECHO\r\n$2\r\nhi\r\n".toList] := by
      decide
    have hh : handedCmds 0 ⟨[], []⟩
        [["PING".toList], ["ECHO".toList, "hi".toList]] =
        [["PING".toList], ["ECHO".toList, "hi".toList]] := by decide
    rw [hs, hh] at h
    exact h
  · have h := c1_pipelined_read_evaluates_all_in_order 0 ⟨[], []⟩
      [["BOGUS".toList], ["PING".toList]]
      (by decide) (by decide) (by decide)
    have hs : [((([["BOGUS".toList], ["PING".toList]]).map
        encodeCommand).flatten)] =
        ["*1\r\n$5\r\nBOGUS\r\n*1\r\n$4\r\nPING\r\n".toList] := by decide
    have hh : handedCmds 0 ⟨[], []⟩ [["BOGUS".toList], ["PING".toList]] =
        [["BOGUS".toList]] := by decide
    rw [hs, hh] at h
    exact h

theorem serverRead_set (st : MasterSt) (now : Int) (k v : Str)
    (hk : noCRLF k = true) (hv : noCRLF v = true) :
    serverRead st now (encodeCommand ["SET".toList, k, v]) =
      (⟨{ st.eval with kv := dsSetPlain st.eval.kv k (.vStr v) },
        st.replicas.map (· ++ encodeCommand ["SET".toList, k, v]),
        st.offset + (encodeCommand ["SET".toList, k, v]).length⟩, true) := by
  have hs : ∀ s ∈ ["SET".toList, k, v], noCRLF s = true := by
    intro s hsm
    simp only [List.mem_cons, List.not_mem_nil, or_false] at hsm
    rcases hsm with rfl | rfl | rfl
    · decide
    · exact hk
    · exact hv
  have hsplit : splitCRLF (encodeCommand ["SET".toList, k, v]) =
      chunksCmd ["SET".toList, k, v] ++ [[]] := by
    have := splitCRLF_cmd ["SET".toList, k, v] hs []
    simpa using this
  unfold serverRead
  rw [hsplit, connLoop]
  simp only [parse_cmd]
  rfl

theorem serverRead_incr (st : MasterSt) (now : Int) (k : Str)
    (hk : noCRLF k = true) :
    (serverRead st now (encodeCommand ["INCR".toList, k])).1.replicas =
      st.replicas ∧
    (serverRead st now (encodeCommand ["INCR".toList, k])).1.offset =
      st.offset := by
  have hs : ∀ s ∈ ["INCR".toList, k], noCRLF s = true := by
    intro s hsm
    simp only [List.mem_cons, List.not_mem_nil, or_false] at hsm
    rcases hsm with rfl | rfl
    · decide
    · exact hk
  have hsplit : splitCRLF (encodeCommand ["INCR".toList, k]) =
      chunksCmd ["INCR".toList, k] ++ [[]] := by
    have := splitCRLF_cmd ["INCR".toList, k] hs []
    simpa using this
  have htr : rTruthy (RValue.arr (List.map RValue.str ["INCR".toList, k])) = true := rfl
  have hq : queryOfRValue (RValue.arr (List.map RValue.str ["INCR".toList, k])) =
      some ["INCR".toList, k] := rfl
  unfold serverRead
  rw [hsplit, connLoop]
  simp only [parse_cmd, htr, if_true, hq]
  cases hev : evalCommand st.eval now ["INCR".toList, k] with
  | error e =>
    simp only [hev]
    constructor <;> trivial
  | ok pair =>
    obtain ⟨ev', resp⟩ := pair
    have hns := incr_resp_no_OK st.eval now k ev' resp hev
    simp only [hev, hns, Bool.and_false]
    constructor <;> trivial

/-- Claim C4 (amended): of the alleged mutating set {SET, INCR, XADD}, only
SET triggers replication, and what the master writes is not the command's
canonical RESP serialization but the raw bytes of the whole socket read:
(1) for every accepted `SET k v` (CRLF-free arguments), the read buffer is
appended verbatim to every registered replica's connection and
`master_repl_offset` grows by that buffer's byte length (here the read is
exactly the canonical command, so the two coincide); (2) for every `INCR k`,
accepted or not, nothing is written to any replica and the offset is
unchanged, because the propagation gate `"SET" in query and "OK" in
response` (server.py line 75) is never satisfied — an integer or error reply
never contains the substring `"OK"`.  (XADD is likewise never propagated;
the counterexample exhibits the INCR case concretely.) -/
theorem c4_only_set_propagates_raw_buffer :
    (∀ (st : MasterSt) (now : Int) (k v : Str),
      noCRLF k = true → noCRLF v = true →
      (serverRead st now (encodeCommand ["SET".toList, k, v])).1.replicas =
        st.replicas.map (· ++ encodeCommand ["SET".toList, k, v]) ∧
      (serverRead st now (encodeCommand ["SET".toList, k, v])).1.offset =
        st.offset + (encodeCommand ["SET".toList, k, v]).length) ∧
    (∀ (st : MasterSt) (now : Int) (k : Str), noCRLF k = true →
      (serverRead st now (encodeCommand ["INCR".toList, k])).1.replicas =
        st.replicas ∧
      (serverRead st now (encodeCommand ["INCR".toList, k])).1.offset =
        st.offset) := by
  constructor
  · intro st now k v hk hv
    rw [serverRead_set st now k v hk hv]
    exact ⟨rfl, rfl⟩
  · intro st now k hk
    exact serverRead_incr st now k hk

/-- Claim C4, witness: the amended theorem applied to a master with one
registered replica, a `SET k v` read (propagated raw, offset +23) and an
`INCR k` read (not propagated). -/
theorem c4_witness :
    ((serverRead ⟨⟨[], []⟩, [[]], 0⟩ 0
        (encodeCommand ["SET".toList, "k".toList, "v".toList])).1.replicas =
      [[]].map (· ++ encodeCommand ["SET".toList, "k".toList, "v".toList]) ∧
     (serverRead ⟨⟨[], []⟩, [[]], 0⟩ 0
        (encodeCommand ["SET".toList, "k".toList, "v".toList])).1.offset =
      0 + (encodeCommand ["SET".toList, "k".toList, "v".toList]).length) ∧
    ((serverRead ⟨⟨[], []⟩, [[]], 0⟩ 0
        (encodeCommand ["INCR".toList, "k".toList])).1.replicas = [[]] ∧
     (serverRead ⟨⟨[], []⟩, [[]], 0⟩ 0
        (encodeCommand ["INCR".toList, "k".toList])).1.offset = 0) := by
  exact ⟨c4_only_set_propagates_raw_buffer.1 ⟨⟨[], []⟩, [[]], 0⟩ 0
      "k".toList "v".toList (by decide) (by decide),
    c4_only_set_propagates_raw_buffer.2 ⟨⟨[], []⟩, [[]], 0⟩ 0
      "k".toList (by decide)⟩

/-! Claim C9: the event bus (events.py). -/

/-- A registered listener, abstracted to an identity and whether its
invocation raises. -/
structure Listener where
  id : Nat
  fails : Bool

/-- `EventBus.emit` (events.py lines 25-27): `for listener in
self._listeners[event.type]: listener(event)` — no try/except around the
call.  Returns the ids of the listeners that were invoked, in order, and
`some i` when listener `i` raised (the exception propagates to the emitter
and ends the loop; subsequent listeners are not invoked). -/
def emitBus : List Listener → List Nat × Option Nat
  | [] => ([], none)
  | l :: rest =>
    if l.fails then ([l.id], some l.id)
    else
      match emitBus rest with
      | (invoked, err) => (l.id :: invoked, err)

/-- Claim C9, counterexample: two listeners registered in order 0, 1 where
listener 0 raises: listener 1 is never invoked (invoked list is `[0]`, not
`[0, 1]`) and the error propagates to the emitter (`some 0` instead of
`none`), contradicting both halves of the claim (all listeners invoked in
registration order; errors isolated from the emitter). -/
theorem c9_listener_error_stops_emit :
    emitBus [⟨0, true⟩, ⟨1, false⟩] = ([0], some 0) ∧
    ([0] : List Nat) ≠ [0, 1] := by
  exact ⟨rfl, by decide⟩

/-- Claim C9 (amended): for every event emission, the listeners are invoked
in registration order only up to and including the first listener that
raises; that listener's error propagates to the emitter, and later listeners
are not invoked.  When no listener raises, all listeners are invoked in
registration order and no error reaches the emitter. -/
theorem c9_emit_invokes_until_first_failure (ls : List Listener) :
    emitBus ls =
      (match ls.dropWhile (fun l => !l.fails) with
       | [] => ((ls.map Listener.id), none)
       | l :: _ => ((ls.takeWhile (fun l => !l.fails)).map Listener.id ++ [l.id],
           some l.id)) := by
  induction ls with
  | nil => rfl
  | cons l rest ih =>
    cases hf : l.fails with
    | true =>
      rw [emitBus, if_pos hf]
      simp [List.dropWhile_cons, List.takeWhile_cons, hf]
    | false =>
      rw [emitBus, if_neg (by simp [hf])]
      rw [ih]
      simp only [List.dropWhile_cons, List.takeWhile_cons, hf, Bool.not_false,
        if_true]
      cases hd : rest.dropWhile (fun l => !l.fails) with
      | nil => simp [List.map_cons]
      | cons x xs => simp [List.map_cons]

/-! Claim C8: RDB length encoding and integer-as-string decoding
(parsers.py, class RDBParser).  The RDB buffer is a byte list. -/

/-- A value decoded by `RDBParser._parse_string`: a byte string or an
integer. -/
inductive RdbVal
  | rStr : List Nat → RdbVal
  | rInt : Nat → RdbVal
deriving DecidableEq

/-- `RDBProtocolError` (malformed length byte) or the `IndexError` of
reading past the buffer end. -/
inductive RdbErr
  | badLength
  | indexError
deriving DecidableEq

/-- Python's `int.from_bytes(data)` with its DEFAULT byte order — which is
big-endian ("big").  The explicit `byteorder="little"` used for expiries in
`_parse_expiry` is absent in `_parse_string`. -/
def intFromBytesBig (l : List Nat) : Nat :=
  l.foldl (fun acc b => acc * 256 + b) 0

/-- Little-endian decoding, as the RDB format (and the claim) prescribe for
integer-as-string payloads; kept for comparison with the code. -/
def intFromBytesLittle (l : List Nat) : Nat :=
  l.foldr (fun b acc => acc * 256 + b) 0

/-- `RDBParser._parse_length` (parsers.py lines 188-213): from the top two
bits of the length byte (`(byte & 0b11000000) >> 6`, i.e. `b % 256 / 64`),
return how many bytes to read next and whether they are an integer payload
(`true`: low six bits 0/1/2 select 1/2/4 bytes) or a string of that length
(`false`); other shapes raise `RDBProtocolError`. -/
def rdb_parse_length (b : Nat) : Except RdbErr (Nat × Bool) :=
  if b % 256 / 64 = 0 then .ok (b % 64, false)
  else if b % 256 / 64 = 3 then
    if b % 64 = 0 then .ok (1, true)
    else if b % 64 = 1 then .ok (2, true)
    else if b % 64 = 2 then .ok (4, true)
    else .error .badLength
  else .error .badLength

/-- `RDBParser._parse_string` (parsers.py lines 173-186) at `pos` in `buf`:
`_read_byte` the length byte (`IndexError` past the end), `_parse_length`
it, `_read_bytes` the payload (a Python slice — silently short at the buffer
end), and decode it: `int.from_bytes(data)` — big-endian by default — for
the integer case, the identity (`data.decode()`) for the string case.
Returns the value and the advanced position. -/
def rdb_parse_string (buf : List Nat) (pos : Nat) : Except RdbErr (RdbVal × Nat) :=
  match (buf.drop pos).take 1 with
  | [] => .error .indexError
  | lengthType :: _ =>
    match rdb_parse_length lengthType with
    | .error e => .error e
    | .ok (len, isInt) =>
      let data := (buf.drop (pos + 1)).take len
      if isInt then .ok (.rInt (intFromBytesBig data), pos + 1 + len)
      else .ok (.rStr data, pos + 1 + len)

/-- Claim C8 (code bug, evaluated at the failing input): for length byte
0xC1 (top two bits 11, low six bits 1) the loader does read a 2-byte
payload, as the claim says — the position advances from 0 to 3 and
`_parse_length` returns 2 — but it decodes the payload [0x01, 0x00]
big-endian to 256: `int.from_bytes(data)` omits the `byteorder` argument,
whose Python default is `"big"`, while the RDB format — which the same file
follows explicitly with `byteorder="little"` when parsing expiries — and
the claim prescribe little-endian, i.e. the value 1. -/
theorem c8_rdb_int_string_decoded_big_endian :
    rdb_parse_string [0xC1, 0x01, 0x00] 0 = .ok (.rInt 256, 3) ∧
    rdb_parse_length 0xC1 = .ok (2, true) ∧
    intFromBytesLittle [0x01, 0x00] = 1 ∧ (256 : Nat) ≠ 1 := by
  exact ⟨rfl, rfl, rfl, by decide⟩

/-- Claim C6, witness: the invariant theorem applied to a concrete operation
sequence — an accepted add (`1-1`), a rejected smaller id (`1-0`), a
rejected `0-0` and an accepted `2-0` — and its rejection clause applied to
the concrete rejected `XADD s 0-0` on an empty stream. -/
theorem c6_witness :
    streamInvB ([("1-1".toList, [("a".toList, "1".toList)]),
        ("1-0".toList, [("b".toList, "2".toList)]),
        ("0-0".toList, [("c".toList, "3".toList)]),
        ("2-0".toList, [("d".toList, "4".toList)])].foldl xaddStep []) = true ∧
    xaddStep [] ("0-0".toList, []) = [] := by
  exact ⟨(c6_stream_invariant [("1-1".toList, [("a".toList, "1".toList)]),
      ("1-0".toList, [("b".toList, "2".toList)]),
      ("0-0".toList, [("c".toList, "3".toList)]),
      ("2-0".toList, [("d".toList, "4".toList)])]).1,
    (c6_stream_invariant []).2 [] ("0-0".toList, []) .idZero rfl⟩
